import Mathlib

/-!
# The heap manager of `myHeap.c`, embedded in Lean

The C program keeps one global `struct heap`.  Here that record is an explicit
value of type `Heap` which every operation takes and returns.

* Addresses (`addr`, `void *`) are natural numbers, `NULL` is `0`.  Address
  additions are not reduced modulo `2 ^ 64`: the arena is assumed to sit low
  enough in the address space that `address + uint` never wraps.
* The arena buffer is a function from addresses to bytes together with the
  number of bytes `calloc` really handed out (`memBytes`); a `uint` field is
  four bytes, little endian.  Touching a byte outside the buffer is a `Fault`.
* `freeList` is the content of the pointer array returned by `calloc`; its
  length is the number of slots of that buffer.  Touching a slot outside it is
  a `Fault`.
* `uint` arithmetic is written with an explicit `% UINT`.
* `printf` output is not modelled; `exit (1)` is an explicit outcome.
-/

namespace MyHeap

/-- `MIN_HEAP`: minimum total space for the heap. -/
def MIN_HEAP : Nat := 4096

/-- `MIN_CHUNK`: minimum amount of space for a free chunk (excludes header). -/
def MIN_CHUNK : Nat := 32

/-- `ALLOC`: status word of an allocated chunk. -/
def ALLOC : Nat := 0x55555555

/-- `FREE`: status word of a free chunk. -/
def FREE : Nat := 0xAAAAAAAA

/-- `sizeof(header)`: the two `uint` fields `status` and `size`. -/
def HeaderSize : Nat := 8

/-- `sizeof(void *)` on the 64-bit target. -/
def PtrSize : Nat := 8

/-- Modulus of `uint` arithmetic. -/
def UINT : Nat := 4294967296

/-- Modulus of `addr` (`uintptr_t`) arithmetic. -/
def ADDR : Nat := 18446744073709551616

/-- Undefined behaviour of the C program that the embedding makes explicit. -/
inductive Fault where
  /-- `freelist[i]` was read or written with `i` outside the buffer. -/
  | slot (i : Int)
  /-- The bytes at address `a` were read or written outside the arena buffer. -/
  | arena (a : Nat)
  deriving DecidableEq, Repr

/-- `struct heap`, with the contents of the two buffers it points to. -/
structure Heap where
  /-- `heapMem`: address of the first byte of the arena buffer. -/
  heapMem : Nat
  /-- `heapSize`: number of bytes the heap believes the arena has. -/
  heapSize : Nat
  /-- Contents of the buffer `freeList` points to, one entry per slot. -/
  freeList : List Nat
  /-- `freeElems`: the recorded capacity of `freeList`. -/
  freeElems : Nat
  /-- `nFree`: the counter the code keeps for the free list. -/
  nFree : Nat
  /-- Bytes of the arena buffer, by absolute address. -/
  mem : Nat → Nat
  /-- Number of bytes of the buffer `heapMem` points to. -/
  memBytes : Nat

/-- Read a `uint` stored at address `a`. -/
def read32 (m : Nat → Nat) (a : Nat) : Nat :=
  m a % 256 + 256 * (m (a + 1) % 256) + 65536 * (m (a + 2) % 256)
    + 16777216 * (m (a + 3) % 256)

/-- Write the `uint` `v` at address `a`. -/
def write32 (m : Nat → Nat) (a v : Nat) : Nat → Nat := fun x =>
  if x = a then v % 256
  else if x = a + 1 then v / 256 % 256
  else if x = a + 2 then v / 65536 % 256
  else if x = a + 3 then v / 16777216 % 256
  else m x

/-- The effect of `memset (p, 0, n)` on the bytes. -/
def memset0 (m : Nat → Nat) (p n : Nat) : Nat → Nat := fun x =>
  if p ≤ x ∧ x < p + n then 0 else m x

/-- Read a `uint` field of a header; a fault outside the arena buffer. -/
def load (h : Heap) (a : Nat) : Except Fault Nat :=
  if h.heapMem ≤ a ∧ a + 4 ≤ h.heapMem + h.memBytes then .ok (read32 h.mem a)
  else .error (.arena a)

/-- Write a `uint` field of a header; a fault outside the arena buffer. -/
def store (h : Heap) (a v : Nat) : Except Fault Heap :=
  if h.heapMem ≤ a ∧ a + 4 ≤ h.heapMem + h.memBytes then
    .ok { h with mem := write32 h.mem a v }
  else .error (.arena a)

/-- The call `memset (p, 0, n)` on the arena. -/
def zeroFill (h : Heap) (p n : Nat) : Except Fault Heap :=
  if n = 0 then .ok h
  else if h.heapMem ≤ p ∧ p + n ≤ h.heapMem + h.memBytes then
    .ok { h with mem := memset0 h.mem p n }
  else .error (.arena p)

/-- Read `freelist[i]`. -/
def slotGet (fl : List Nat) (i : Nat) : Except Fault Nat :=
  match fl[i]? with
  | some p => .ok p
  | none => .error (.slot i)

/-- Write `freelist[i] = v`. -/
def slotSet (fl : List Nat) (i v : Nat) : Except Fault (List Nat) :=
  if i < fl.length then .ok (fl.set i v) else .error (.slot i)

/-- Rounding of a positive size up to a multiple of four, as both `initHeap`
and `myMalloc` do it: `if ((size % 4) > 0) size = size + (4 - (size % 4))`. -/
def roundUp4 (size : Nat) : Nat :=
  if size % 4 > 0 then size + (4 - size % 4) else size

/-- The value `uint totalSize = size + HeaderSize` of `myMalloc` for a request
of `size >= 1` bytes.  (If the rounding leaves the range of `int` it wraps to
a negative `int` whose conversion to `uint` is the same number.) -/
def totalSizeOf (size : Nat) : Nat := (roundUp4 size + HeaderSize) % UINT

/-- First loop of `deleteList`: `while ((addr)freelist[i] != (addr)p) i++;`,
entered with the slots from index `i` on. -/
def findSlot (p : Nat) : List Nat → Nat → Except Fault Nat
  | [], i => .error (.slot i)
  | x :: rest, i => if x = p then .ok i else findSlot p rest (i + 1)

/-- Second loop of `deleteList`, `cnt` iterations of
`freelist[i] = freelist[i+1]; i++`. -/
def shiftDown : Nat → List Nat → Nat → Except Fault (List Nat)
  | 0, fl, _ => .ok fl
  | cnt + 1, fl, i =>
    match slotGet fl (i + 1) with
    | .error e => .error e
    | .ok v =>
      match slotSet fl i v with
      | .error e => .error e
      | .ok fl1 => shiftDown cnt fl1 (i + 1)

/-- `deleteList (Heap.freeList, p)`.  The second loop runs while
`i < Heap.nFree`, that is `nFree - i` times. -/
def deleteList (h : Heap) (p : Nat) : Except Fault Heap :=
  match findSlot p h.freeList 0 with
  | .error e => .error e
  | .ok i =>
    match shiftDown (h.nFree - i) h.freeList i with
    | .error e => .error e
    | .ok fl => .ok { h with freeList := fl, nFree := (h.nFree + UINT - 1) % UINT }

/-- First loop of `insertList`: `while ((addr)obj > (addr)freelist[i]) i++;`,
entered with the slots from index `i` on. -/
def insertPos (obj : Nat) : List Nat → Nat → Except Fault Nat
  | [], i => .error (.slot i)
  | x :: rest, i => if obj > x then insertPos obj rest (i + 1) else .ok i

/-- The `for` loop of `insertList`, `cnt` iterations of
`curr = freelist[i]; freelist[i] = prev; prev = curr; i++`. -/
def shiftUp : Nat → List Nat → Nat → Nat → Except Fault (List Nat)
  | 0, fl, _, _ => .ok fl
  | cnt + 1, fl, i, prev =>
    match slotGet fl i with
    | .error e => .error e
    | .ok curr =>
      match slotSet fl i prev with
      | .error e => .error e
      | .ok fl1 => shiftUp cnt fl1 (i + 1) curr

/-- `insertList (Heap.freeList, obj)`: the new heap and the returned index. -/
def insertList (h : Heap) (obj : Nat) : Except Fault (Heap × Nat) :=
  match insertPos obj h.freeList 0 with
  | .error e => .error e
  | .ok index =>
    match slotGet h.freeList index with
    | .error e => .error e
    | .ok prev =>
      match slotSet h.freeList index obj with
      | .error e => .error e
      | .ok fl1 =>
        let nFree1 := (h.nFree + 1) % UINT
        match shiftUp (nFree1 - (index + 1)) fl1 (index + 1) prev with
        | .error e => .error e
        | .ok fl2 => .ok ({ h with freeList := fl2, nFree := nFree1 }, index)

/-- The block that `mergeFreeChunks` repeats four times:
`if (nextP == currP + curr->size) { curr->size = curr->size + next->size;
deleteList (freelist, nextP); memset (nextP, 0, next->size); }`. -/
def mergeInto (h : Heap) (currP nextP : Nat) : Except Fault Heap :=
  match load h (currP + 4) with
  | .error e => .error e
  | .ok csz =>
    if nextP = currP + csz then
      match load h (nextP + 4) with
      | .error e => .error e
      | .ok nsz =>
        match store h (currP + 4) ((csz + nsz) % UINT) with
        | .error e => .error e
        | .ok h1 =>
          match deleteList h1 nextP with
          | .error e => .error e
          | .ok h2 =>
            match load h2 (nextP + 4) with
            | .error e => .error e
            | .ok n => zeroFill h2 nextP n
    else .ok h

/-- `mergeFreeChunks (Heap.freeList, index)`. -/
def mergeFreeChunks (h : Heap) (index : Nat) : Except Fault Heap :=
  if index = 0 then
    match slotGet h.freeList index with
    | .error e => .error e
    | .ok currP =>
      match slotGet h.freeList (index + 1) with
      | .error e => .error e
      | .ok nextP => mergeInto h currP nextP
  else if index = (h.nFree + UINT - 1) % UINT then
    if index < 2 then .error (.slot ((index : Int) - 2))
    else
      match slotGet h.freeList (index - 2) with
      | .error e => .error e
      | .ok currP =>
        match slotGet h.freeList (index - 1) with
        | .error e => .error e
        | .ok nextP => mergeInto h currP nextP
  else
    match slotGet h.freeList (index - 1) with
    | .error e => .error e
    | .ok prevP =>
      match slotGet h.freeList index with
      | .error e => .error e
      | .ok currP =>
        match slotGet h.freeList (index + 1) with
        | .error e => .error e
        | .ok nextP =>
          match mergeInto h currP nextP with
          | .error e => .error e
          | .ok h1 => mergeInto h1 prevP currP

/-- The heap that `calloc` failed to give any buffer: the static `Heap` after
`Heap.nFree = 0; Heap.freeElems = 0`. -/
def emptyHeap : Heap :=
  { heapMem := 0, heapSize := 0, freeList := [], freeElems := 0, nFree := 0,
    mem := fun _ => 0, memBytes := 0 }

/-- `initHeap (size)`.  The results of the two `calloc` calls are inputs:
`arena` is the address of the arena buffer (`0` when that call fails) and
`table` says whether the buffer of the free list was obtained.  The result is
the returned `int` and the state left behind.  The rounding is done in the
naturals, so the embedding follows the code for the sizes whose rounding stays
in the range of `int`.  (The writes `*first = ...` and `Heap.freeList[0] = ...`
are inside their buffers, which have at least 4096 bytes and 16 slots.) -/
def initHeap (size : Int) (arena : Nat) (table : Bool) : Int × Heap :=
  let size1 : Int := if size < (MIN_HEAP : Int) then (MIN_HEAP : Int) else size
  let size2 : Nat := roundUp4 size1.toNat
  let n : Nat := size2 / PtrSize % UINT
  if arena = 0 then (-1, emptyHeap)
  else
    let h1 : Heap :=
      { heapMem := arena, heapSize := size2 % UINT, freeList := [], freeElems := 0,
        nFree := 1, mem := fun _ => 0, memBytes := n * PtrSize }
    let n2 : Nat := size2 / (MIN_CHUNK * PtrSize) % UINT
    if table = false then (-1, h1)
    else
      (0, { h1 with
              freeList := (List.replicate n2 0).set 0 arena
              freeElems := n2
              mem := write32 (write32 h1.mem arena FREE) (arena + 4) (size2 % UINT) })

/-- The local variables of the search loop of `myMalloc`. -/
structure Scan where
  /-- `replaceIndex`; `none` is the initial `-1`. -/
  replaceIndex : Option Nat
  /-- `smallestChunk`, which is also the value of `headerP` and `dataP`. -/
  smallestChunk : Nat
  /-- `smallestSize`. -/
  smallestSize : Nat
  /-- `Header`: the free-list entry the loop looked at last. -/
  lastHeader : Nat
  deriving DecidableEq, Repr

/-- The search loop of `myMalloc`, `while (Heap.freeList[i] != NULL) { ... i++; }`,
entered with the slots from index `i` on. -/
def scan (h : Heap) (totalSize : Nat) : List Nat → Nat → Scan → Except Fault Scan
  | [], i, _ => .error (.slot i)
  | p :: rest, i, s =>
    if p = 0 then .ok s
    else
      match load h p with
      | .error e => .error e
      | .ok status =>
        if status = FREE then
          match load h (p + 4) with
          | .error e => .error e
          | .ok sz =>
            if totalSize ≤ sz ∧ sz < s.smallestSize then
              scan h totalSize rest (i + 1)
                { replaceIndex := some i, smallestChunk := p, smallestSize := sz,
                  lastHeader := p }
            else scan h totalSize rest (i + 1) { s with lastHeader := p }
        else scan h totalSize rest (i + 1) { s with lastHeader := p }

/-- The locals of `myMalloc` before the search loop: `replaceIndex = -1`,
`smallestSize = Heap.heapSize+1`, the pointers not yet assigned. -/
def scanInit (h : Heap) : Scan :=
  { replaceIndex := none, smallestChunk := 0, smallestSize := (h.heapSize + 1) % UINT,
    lastHeader := 0 }

/-- `myMalloc (size)`: the state left behind and the returned pointer. -/
def myMalloc (h : Heap) (size : Int) : Except Fault (Heap × Nat) :=
  if size < 1 then .ok (h, 0)
  else
    let totalSize := totalSizeOf size.toNat
    if totalSize > h.heapSize then .ok (h, 0)
    else
      match scan h totalSize h.freeList 0 (scanInit h) with
      | .error e => .error e
      | .ok s =>
        match s.replaceIndex with
        | none => .ok (h, 0)
        | some replaceIndex =>
          match store h s.smallestChunk ALLOC with
          | .error e => .error e
          | .ok h1 =>
            match load h1 (s.smallestChunk + 4) with
            | .error e => .error e
            | .ok ssz =>
              if ssz < (totalSize + MIN_CHUNK + HeaderSize) % UINT then
                match deleteList h1 s.smallestChunk with
                | .error e => .error e
                | .ok h2 => .ok (h2, s.smallestChunk + HeaderSize)
              else
                let newP := s.smallestChunk + totalSize
                match load h1 (s.lastHeader + 4) with
                | .error e => .error e
                | .ok hsz =>
                  match store h1 newP FREE with
                  | .error e => .error e
                  | .ok h2 =>
                    match store h2 (newP + 4) ((hsz + UINT - totalSize) % UINT) with
                    | .error e => .error e
                    | .ok h3 =>
                      match store h3 (s.lastHeader + 4) totalSize with
                      | .error e => .error e
                      | .ok h4 =>
                        match slotSet h4.freeList replaceIndex newP with
                        | .error e => .error e
                        | .ok fl =>
                          .ok ({ h4 with freeList := fl }, s.smallestChunk + HeaderSize)

/-- How a call of `myFree` ends when it has no undefined behaviour. -/
inductive FreeOutcome where
  /-- The call printed its message and ran `exit (1)`, in this state. -/
  | exited (h : Heap)
  /-- The call returned to its caller, leaving this state. -/
  | returned (h : Heap)

/-- `myFree (obj)`. -/
def myFree (h : Heap) (obj : Nat) : Except Fault FreeOutcome :=
  if obj = 0 then .ok (.exited h)
  else
    let headerP := (obj + ADDR - HeaderSize) % ADDR
    match load h headerP with
    | .error e => .error e
    | .ok status =>
      if status = ALLOC then
        match store h headerP FREE with
        | .error e => .error e
        | .ok h1 =>
          let h2 : Heap := { h1 with nFree := (h1.nFree + 1) % UINT }
          if h2.nFree = 0 then
            match slotSet h2.freeList 0 headerP with
            | .error e => .error e
            | .ok fl => .ok (.returned { h2 with freeList := fl })
          else
            match insertList h2 headerP with
            | .error e => .error e
            | .ok (h3, index) =>
              match mergeFreeChunks h3 index with
              | .error e => .error e
              | .ok h4 => .ok (.returned h4)
      else .ok (.exited h)

/-- `heapMaxAddr ()`: the first address beyond the range of the heap. -/
def heapMaxAddr (h : Heap) : Nat := h.heapMem + h.heapSize

/-- `heapOffset (obj)`; the cast `(int) (objAddr - heapMin)` keeps the low 32
bits, read in two's complement. -/
def heapOffset (h : Heap) (obj : Nat) : Int :=
  if obj = 0 ∨ ¬ (h.heapMem ≤ obj ∧ obj < heapMaxAddr h) then -1
  else
    let d := (obj - h.heapMem) % UINT
    if d < 2147483648 then (d : Int) else (d : Int) - (UINT : Int)

/-- How the loop of `dumpHeap` ends. -/
inductive Dump where
  /-- The loop left with `curr >= heapMaxAddr ()`; the chunks printed, as
  (address, status, size), and the final value of `curr`. -/
  | finished (rows : List (Nat × Nat × Nat)) (curr : Nat)
  /-- The `default:` branch: `corrupted heap`, with the chunk address and the
  status word found there. -/
  | corrupted (rows : List (Nat × Nat × Nat)) (curr : Nat) (status : Nat)
  /-- A header was read outside the arena buffer. -/
  | fault (rows : List (Nat × Nat × Nat)) (f : Fault)
  /-- The loop was still running after the given number of iterations. -/
  | running (rows : List (Nat × Nat × Nat)) (curr : Nat)
  deriving DecidableEq, Repr

/-- The loop of `dumpHeap`, at most `fuel` iterations from `curr` on; `rows`
are the chunks printed so far. -/
def dumpLoop (h : Heap) : Nat → Nat → List (Nat × Nat × Nat) → Dump
  | 0, curr, rows => if curr < heapMaxAddr h then .running rows curr else .finished rows curr
  | fuel + 1, curr, rows =>
    if curr < heapMaxAddr h then
      match load h curr with
      | .error e => .fault rows e
      | .ok status =>
        if status = FREE ∨ status = ALLOC then
          match load h (curr + 4) with
          | .error e => .fault rows e
          | .ok sz => dumpLoop h fuel (curr + sz) (rows ++ [(curr, status, sz)])
        else .corrupted rows curr status
    else .finished rows curr

/-- `dumpHeap ()`: the walk over the arena from `heapMem`.  A walk over chunks
of positive size needs at most `heapSize` iterations. -/
def dumpHeap (h : Heap) : Dump := dumpLoop h h.heapSize h.heapMem []

/-- One call a client makes after `initHeap`. -/
inductive Call where
  /-- The call `myMalloc (size)`. -/
  | malloc (size : Int)
  /-- The call `myFree (p)` where `p` is the pointer the `k`-th `myMalloc` call
  of the run returned (counting from 0). -/
  | free (k : Nat)
  deriving DecidableEq, Repr

/-- A pointer `myMalloc` returned during a run. -/
structure Handle where
  /-- The returned pointer. -/
  ptr : Nat
  /-- The size that was asked for. -/
  size : Int
  /-- Whether the pointer is non-null and has not been handed to `myFree`. -/
  live : Bool
  deriving DecidableEq, Repr

/-- The heap together with the pointers handed out so far. -/
structure Session where
  /-- The state of the heap. -/
  heap : Heap
  /-- One handle for each `myMalloc` call made, oldest first. -/
  handles : List Handle

/-- Perform one call.  `none` when the call is not a valid use of the heap
(`myFree` of something that is not a live pointer), when `myFree` ends in
`exit (1)`, or when the call has undefined behaviour. -/
def Session.step (s : Session) : Call → Option Session
  | .malloc size =>
    match myMalloc s.heap size with
    | .ok (h1, p) =>
      some { heap := h1, handles := s.handles ++ [{ ptr := p, size := size, live := decide (p ≠ 0) }] }
    | .error _ => none
  | .free k =>
    match s.handles[k]? with
    | none => none
    | some hd =>
      if hd.live then
        match myFree s.heap hd.ptr with
        | .ok (.returned h1) =>
          some { heap := h1, handles := s.handles.set k { hd with live := false } }
        | _ => none
      else none

/-- Perform a sequence of calls. -/
def Session.run (s : Session) : List Call → Option Session
  | [] => some s
  | c :: cs =>
    match s.step c with
    | none => none
    | some s1 => s1.run cs

/-- The session right after `initHeap (size)` with the arena at address
`arena`, when `initHeap` returned 0. -/
def startSession (size : Int) (arena : Nat) : Option Session :=
  match initHeap size arena true with
  | (0, h) => some { heap := h, handles := [] }
  | _ => none

/-- The states reachable from a successful `initHeap` by `myMalloc` calls and
`myFree` calls on pointers previously returned and not yet freed. -/
def Reachable (s : Session) : Prop :=
  ∃ size arena calls s0, startSession size arena = some s0 ∧ s0.run calls = some s

/-! ## The vocabulary of the claims -/

deriving instance DecidableEq for Except

/-- The session right after `initHeap (4096)` returned 0 with the arena buffer
at address 65536. -/
def fresh : Session := { heap := (initHeap 4096 65536 true).2, handles := [] }

/-- The session `calls` leads to from `fresh` (`fresh` itself when the run has
no result). -/
def after (calls : List Call) : Session := (fresh.run calls).getD fresh

/-- The heap a `myMalloc` call left behind (`h` itself for a fault). -/
def heapOf (h : Heap) (r : Except Fault (Heap × Nat)) : Heap :=
  match r with
  | .ok (h1, _) => h1
  | .error _ => h

/-- The slots before the first `NULL`. -/
def upToNull (l : List Nat) : List Nat := l.takeWhile (fun p => decide (p ≠ 0))

/-- The entries of the free list: the slots before the first `NULL`, which are
the ones the search loop of `myMalloc` looks at. -/
def entries (h : Heap) : List Nat := upToNull h.freeList

/-- The free-list entry `q` is a header with status `FREE` and size `szq`, and
that size is at least `ts`. -/
def Fits (h : Heap) (ts q szq : Nat) : Prop :=
  load h q = .ok FREE ∧ load h (q + 4) = .ok szq ∧ ts ≤ szq

/-- The non-null slots of the free list. -/
def nonNull (h : Heap) : List Nat := h.freeList.filter (fun p => decide (p ≠ 0))

/-- No-overlap: the payload ranges `[p, p + n)` of any two live pointers are
disjoint. -/
def NoOverlap (s : Session) : Prop :=
  ∀ (i j : Nat) (a b : Handle), i ≠ j → s.handles[i]? = some a → s.handles[j]? = some b →
    a.live = true → b.live = true →
    (a.ptr : Int) + a.size ≤ b.ptr ∨ (b.ptr : Int) + b.size ≤ a.ptr

/-- The chunks `dumpHeap` printed. -/
def Dump.rows : Dump → List (Nat × Nat × Nat)
  | .finished rows _ => rows
  | .corrupted rows _ _ => rows
  | .fault rows _ => rows
  | .running rows _ => rows

/-- Tiling: the walk of `dumpHeap` meets only `FREE` and `ALLOC` headers and
stops exactly at the end of the arena. -/
def Tiles (h : Heap) : Prop := ∃ rows, dumpHeap h = .finished rows (heapMaxAddr h)

/-- The addresses of the chunks of the arena walk whose status is `FREE`. -/
def walkFree (h : Heap) : List Nat :=
  ((dumpHeap h).rows.filter (fun r => decide (r.2.1 = FREE))).map (fun r => r.1)

/-- Free-list fidelity: the non-null slots are exactly the `FREE` chunks of the
arena walk, in the ascending order of the walk. -/
def Faithful (h : Heap) : Prop := nonNull h = walkFree h

/-- Merge completeness: no free-list entry ends where another one starts. -/
def MergeComplete (h : Heap) : Prop :=
  ∀ a b sz, a ∈ nonNull h → b ∈ nonNull h → load h (a + 4) = .ok sz → a + sz ≠ b

/-! ## Well-formed states -/

/-- Total size of a sequence of chunks, each given as (status, size). -/
def span : List (Nat × Nat) → Nat
  | [] => 0
  | c :: cs => c.2 + span cs

/-- The bytes `m` hold the headers of the chunks `cs` laid out one after the
other from address `a` on. -/
def Chain (m : Nat → Nat) : Nat → List (Nat × Nat) → Prop
  | _, [] => True
  | a, c :: cs => read32 m a = c.1 ∧ read32 m (a + 4) = c.2 ∧ Chain m (a + c.2) cs

/-- Every chunk has status `FREE` or `ALLOC` and room for its header. -/
def Shaped (cs : List (Nat × Nat)) : Prop :=
  ∀ c ∈ cs, (c.1 = FREE ∨ c.1 = ALLOC) ∧ HeaderSize ≤ c.2

instance Shaped.decidable (cs : List (Nat × Nat)) : Decidable (Shaped cs) :=
  inferInstanceAs (Decidable (∀ c ∈ cs, (c.1 = FREE ∨ c.1 = ALLOC) ∧ HeaderSize ≤ c.2))

instance Chain.decidable (m : Nat → Nat) :
    (a : Nat) → (cs : List (Nat × Nat)) → Decidable (Chain m a cs)
  | _, [] => isTrue trivial
  | a, c :: cs =>
    have := Chain.decidable m (a + c.2) cs
    inferInstanceAs
      (Decidable (read32 m a = c.1 ∧ read32 m (a + 4) = c.2 ∧ Chain m (a + c.2) cs))

/-- The addresses of the `FREE` chunks of `cs`, laid out from address `a` on,
in ascending order. -/
def freeAddrs : Nat → List (Nat × Nat) → List Nat
  | _, [] => []
  | a, c :: cs => if c.1 = FREE then a :: freeAddrs (a + c.2) cs else freeAddrs (a + c.2) cs

/-- No two `FREE` chunks are physically contiguous. -/
def NoAdjacentFree : List (Nat × Nat) → Prop
  | c :: d :: cs => ¬ (c.1 = FREE ∧ d.1 = FREE) ∧ NoAdjacentFree (d :: cs)
  | _ => True

instance NoAdjacentFree.decidable : (cs : List (Nat × Nat)) → Decidable (NoAdjacentFree cs)
  | [] => isTrue trivial
  | [_] => isTrue trivial
  | c :: d :: cs =>
    have := NoAdjacentFree.decidable (d :: cs)
    inferInstanceAs (Decidable (¬ (c.1 = FREE ∧ d.1 = FREE) ∧ NoAdjacentFree (d :: cs)))

/-- A well-formed state with chunk sequence `cs`: the chunks `cs` tile the
arena, which lies inside its buffer; the free list is exactly the `FREE` chunks
in ascending order followed by `NULL` slots; `nFree` is at least the number of
entries.  The remaining fields say that `heapMem` is not `NULL`, that the
arena fits the address space, that `heapSize` came from an `int`, and that
`freeElems` is the number of slots and, like `nFree`, a `uint`. -/
structure WellFormed (h : Heap) (cs : List (Nat × Nat)) : Prop where
  base_pos : 0 < h.heapMem
  in_space : h.heapMem + h.heapSize ≤ ADDR
  in_buffer : h.heapSize ≤ h.memBytes
  size_int : h.heapSize < 2147483648
  nFree_uint : h.nFree < UINT
  slots : h.freeList.length = h.freeElems
  elems_uint : h.freeElems < UINT
  shaped : Shaped cs
  chain : Chain h.mem h.heapMem cs
  tiles : span cs = h.heapSize
  list : ∃ k, h.freeList = freeAddrs h.heapMem cs ++ List.replicate k 0
  count : (freeAddrs h.heapMem cs).length ≤ h.nFree

/-- The three conditions on a state with chunk sequence `cs` alone: the chunks
`cs` tile the arena; the free list is exactly the `FREE` chunks in ascending
order followed by `NULL` slots; `nFree` is at least the number of entries.
Nothing is said about the buffer the arena lies in or about the capacity of
the free list. -/
structure Layout (h : Heap) (cs : List (Nat × Nat)) : Prop where
  shaped : Shaped cs
  chain : Chain h.mem h.heapMem cs
  tiles : span cs = h.heapSize
  list : ∃ k, h.freeList = freeAddrs h.heapMem cs ++ List.replicate k 0
  count : (freeAddrs h.heapMem cs).length ≤ h.nFree

/-- Coalescing with the chunk that starts where the freed chunk ends: when
that chunk is `FREE` the freed chunk grows by its size and it disappears.  The
result is the size of the freed chunk and the chunks after it. -/
def absorbNext (sz : Nat) : List (Nat × Nat) → Nat × List (Nat × Nat)
  | [] => (sz, [])
  | d :: rest => if d.1 = FREE then (sz + d.2, rest) else (sz, d :: rest)

/-- Coalescing with the chunk that ends where the freed chunk (of size `s`,
followed by the chunks `rest`) starts: when that chunk is `FREE` it grows by
`s` and the freed chunk disappears. -/
def joinPrev (pre : List (Nat × Nat)) (s : Nat) (rest : List (Nat × Nat)) :
    List (Nat × Nat) :=
  match pre.getLast? with
  | some d =>
    if d.1 = FREE then pre.dropLast ++ (FREE, d.2 + s) :: rest
    else pre ++ (FREE, s) :: rest
  | none => pre ++ (FREE, s) :: rest

/-- The chunk sequence the coalescing step is to produce when the `ALLOC` chunk
of size `sz` between the chunks `pre` and `post` is freed: the chunk is `FREE`
and merged with its `FREE` neighbours, sizes added. -/
def coalesce (pre : List (Nat × Nat)) (sz : Nat) (post : List (Nat × Nat)) :
    List (Nat × Nat) :=
  joinPrev pre (absorbNext sz post).1 (absorbNext sz post).2

/-- The session right after `initHeap (size)` with the arena buffer at address
65536 and both buffers obtained. -/
def freshOf (size : Int) : Session :=
  { heap := (initHeap size 65536 true).2, handles := [] }

/-- The count `nFree` is the number of entries in use (non-null slots). -/
def CountsEntries (h : Heap) : Prop := h.nFree = (nonNull h).length

/-- Sixteen calls `myMalloc (100)`, then `myFree` of the chunks 0, 2, ..., 12. -/
def driftRun : List Call :=
  List.replicate 16 (Call.malloc 100) ++
    [Call.free 0, Call.free 2, Call.free 4, Call.free 6, Call.free 8, Call.free 10, Call.free 12]

/-- Sixteen calls `myMalloc (100)`, then `myFree` of the chunks 0, 2, 4, 6, 8,
10, 11 and 13: six frees between allocated neighbours, one that merges with
the free chunk before it, and one more between allocated neighbours. -/
def fullCountRun : List Call :=
  List.replicate 16 (Call.malloc 100) ++
    [Call.free 0, Call.free 2, Call.free 4, Call.free 6, Call.free 8, Call.free 10,
      Call.free 11, Call.free 13]

/-- The chunks of the arena after `fullCountRun`. -/
def fullCountChunks : List (Nat × Nat) :=
  [(FREE, 108), (ALLOC, 108), (FREE, 108), (ALLOC, 108), (FREE, 108), (ALLOC, 108),
    (FREE, 108), (ALLOC, 108), (FREE, 108), (ALLOC, 108), (FREE, 216), (ALLOC, 108),
    (FREE, 108), (ALLOC, 108), (ALLOC, 108), (FREE, 2368)]

/-- The rest of `myFree` once the status has been written, from the state
`h1` after that write: `Heap.nFree++` and the statement
`if (Heap.nFree == 0) ... else { insertList; mergeFreeChunks }`. -/
def freeInsert (h1 : Heap) (headerP : Nat) : Except Fault FreeOutcome :=
  let h2 : Heap := { h1 with nFree := (h1.nFree + 1) % UINT }
  if h2.nFree = 0 then
    match slotSet h2.freeList 0 headerP with
    | .error e => .error e
    | .ok fl => .ok (.returned { h2 with freeList := fl })
  else
    match insertList h2 headerP with
    | .error e => .error e
    | .ok (h3, index) =>
      match mergeFreeChunks h3 index with
      | .error e => .error e
      | .ok h4 => .ok (.returned h4)

/-- The address `obj - sizeof(header)` that `myFree` computes in `addr`
arithmetic. -/
def headerOf (obj : Nat) : Nat := (obj + ADDR - HeaderSize) % ADDR

/-- Rounding up to the next multiple of four, as the specification words it. -/
def ceil4 (n : Nat) : Nat := 4 * ((n + 3) / 4)

/-- Every session reached from `fresh` is a reachable state. -/
theorem reachable_of_run (calls : List Call) (s : Session) (h : fresh.run calls = some s) :
    Reachable s :=
  ⟨4096, 65536, calls, fresh, rfl, h⟩

/-- C1 (code defect): after `A = myMalloc (100)`, `B = myMalloc (8)`, `myFree (A)`,
`myMalloc (20)`, `Q = myMalloc (3000)` on a fresh arena of 4096 bytes at address
65536, the live pointers `B = 65652` (8 bytes) and `Q = 65572` (3000 bytes)
have overlapping payload ranges, so no-overlap fails in a reachable state. -/
theorem C1_live_payloads_overlap :
    ∃ s : Session,
      fresh.run [.malloc 100, .malloc 8, .free 0, .malloc 20, .malloc 3000] = some s ∧
      Reachable s ∧
      s.handles = [⟨65544, 100, false⟩, ⟨65652, 8, true⟩, ⟨65544, 20, true⟩,
        ⟨65572, 3000, true⟩] ∧
      ¬ NoOverlap s := by
  refine ⟨after [.malloc 100, .malloc 8, .free 0, .malloc 20, .malloc 3000], rfl,
    reachable_of_run [.malloc 100, .malloc 8, .free 0, .malloc 20, .malloc 3000] _ (by rfl), by decide, ?_⟩
  intro hno
  have h := hno 1 3 ⟨65652, 8, true⟩ ⟨65572, 3000, true⟩ (by decide) (by decide) (by decide)
    rfl rfl
  simp at h

/-- C2 (code defect): after `A = myMalloc (100)`, `myMalloc (8)`, `myFree (A)`,
`myMalloc (20)` on a fresh arena of 4096 bytes at address 65536, the walk from
the arena base visits the chunks at offsets 0, 108 and 124 and then finds the
status word 0 at offset 152, so the tiling invariant fails in a reachable
state. -/
theorem C2_walk_meets_corrupt_header :
    ∃ s : Session,
      fresh.run [.malloc 100, .malloc 8, .free 0, .malloc 20] = some s ∧
      Reachable s ∧
      dumpHeap s.heap =
        .corrupted [(65536, ALLOC, 108), (65644, ALLOC, 16), (65660, FREE, 28)] 65688 0 ∧
      ¬ Tiles s.heap := by
  refine ⟨after [.malloc 100, .malloc 8, .free 0, .malloc 20], rfl,
    reachable_of_run [.malloc 100, .malloc 8, .free 0, .malloc 20] _ (by rfl), by decide, ?_⟩
  rintro ⟨rows, hrows⟩
  have h : dumpHeap (after [.malloc 100, .malloc 8, .free 0, .malloc 20]).heap =
      .corrupted [(65536, ALLOC, 108), (65644, ALLOC, 16), (65660, FREE, 28)] 65688 0 := by
    decide
  rw [h] at hrows
  exact Dump.noConfusion hrows

/-- C3 (code defect): in the same reachable state the free list holds the
addresses at offsets 28 and 124, while the only `FREE` chunk of the arena walk
is the one at offset 124: the entry at offset 28 is no chunk of the walk. -/
theorem C3_free_list_entry_not_in_walk :
    ∃ s : Session,
      fresh.run [.malloc 100, .malloc 8, .free 0, .malloc 20] = some s ∧
      Reachable s ∧
      nonNull s.heap = [65564, 65660] ∧
      walkFree s.heap = [65660] ∧
      ¬ Faithful s.heap := by
  refine ⟨after [.malloc 100, .malloc 8, .free 0, .malloc 20], rfl,
    reachable_of_run [.malloc 100, .malloc 8, .free 0, .malloc 20] _ (by rfl), by decide, by decide, ?_⟩
  intro hf
  have h1 : nonNull (after [.malloc 100, .malloc 8, .free 0, .malloc 20]).heap
      = [65564, 65660] := by decide
  have h2 : walkFree (after [.malloc 100, .malloc 8, .free 0, .malloc 20]).heap
      = [65660] := by decide
  rw [Faithful, h1, h2] at hf
  exact absurd hf (by decide)

/-- C4 (code defect): in the reachable state after `A = myMalloc (100)`,
`myMalloc (8)`, `myFree (A)` the free list is `[65536, 65660]` with headers
`(FREE, 108)` and `(FREE, 3972)`.  `myMalloc (20)` (`totalSize` 28) chooses the
chunk `c = 65536`, whose leftover is 80.  Afterwards the header of `c` is
`(ALLOC, 108)` and not `(ALLOC, 28)`, the new header at `c + 28` is
`(FREE, 3944)` and not `(FREE, 80)`, and the header of the other free chunk has
become `(FREE, 28)`. -/
theorem C4_split_uses_last_scanned_header :
    ∃ (s : Session) (h1 : Heap),
      fresh.run [.malloc 100, .malloc 8, .free 0] = some s ∧
      Reachable s ∧
      entries s.heap = [65536, 65660] ∧
      load s.heap 65536 = .ok FREE ∧ load s.heap 65540 = .ok 108 ∧
      load s.heap 65660 = .ok FREE ∧ load s.heap 65664 = .ok 3972 ∧
      totalSizeOf 20 = 28 ∧
      myMalloc s.heap 20 = .ok (h1, 65544) ∧
      load h1 65536 = .ok ALLOC ∧ load h1 65540 = .ok 108 ∧
      load h1 65564 = .ok FREE ∧ load h1 65568 = .ok 3944 ∧
      load h1 65660 = .ok FREE ∧ load h1 65664 = .ok 28 ∧
      entries h1 = [65564, 65660] := by
  refine ⟨after [.malloc 100, .malloc 8, .free 0],
    heapOf fresh.heap (myMalloc (after [.malloc 100, .malloc 8, .free 0]).heap 20), rfl,
    reachable_of_run [.malloc 100, .malloc 8, .free 0] _ (by rfl), ?_, ?_, ?_, ?_, ?_, ?_, rfl, ?_, ?_, ?_, ?_, ?_, ?_, ?_⟩ <;> decide

/-- C9 (code defect): after `p = myMalloc (4088)` on a fresh arena of 4096
bytes the free list is empty (16 slots, all `NULL`), and `myFree (p)` reads the
slot of index 16, outside the free list. -/
theorem C9_free_into_empty_list_leaves_buffer :
    ∃ s : Session,
      fresh.run [.malloc 4088] = some s ∧
      Reachable s ∧
      s.handles = [⟨65544, 4088, true⟩] ∧
      s.heap.freeList = List.replicate 16 0 ∧ s.heap.freeElems = 16 ∧
      myFree s.heap 65544 = .error (.slot 16) := by
  refine ⟨after [.malloc 4088], rfl, reachable_of_run [.malloc 4088] _ (by rfl), ?_, ?_, ?_, rfl⟩ <;> decide

/-- C10 (code defect): after `A = myMalloc (1016)`, `myMalloc (1016)`,
`myFree (A)`, `P = myMalloc (20)`, `myFree (P)` on a fresh arena of 4096 bytes,
the free list holds the entries 65564 and 67584 and the size field of the
first is 2020, with `65564 + 2020 = 67584`: right after a `myFree` call two
entries are physically adjacent. -/
theorem C10_adjacent_entries_after_free :
    ∃ s : Session,
      fresh.run [.malloc 1016, .malloc 1016, .free 0, .malloc 20, .free 2] = some s ∧
      Reachable s ∧
      nonNull s.heap = [65536, 65564, 67584] ∧
      load s.heap (65564 + 4) = .ok 2020 ∧
      ¬ MergeComplete s.heap := by
  refine ⟨after [.malloc 1016, .malloc 1016, .free 0, .malloc 20, .free 2], rfl,
    reachable_of_run [.malloc 1016, .malloc 1016, .free 0, .malloc 20, .free 2] _ (by rfl), by decide, by decide, ?_⟩
  intro hm
  exact hm 65564 67584 2020 (by decide) (by decide) (by decide) rfl

/-! ## The search loop of myMalloc -/

theorem load_inj {h : Heap} {a v w : Nat} (h1 : load h a = .ok v) (h2 : load h a = .ok w) :
    v = w := by
  rw [h1] at h2
  exact Except.ok.inj h2

/-- What the search loop of `myMalloc` computes: either it keeps the candidate
it was entered with, and then every fitting entry is at least as large as the
bound it was entered with, or it ends with the first smallest fitting entry. -/
theorem scan_spec (h : Heap) (ts : Nat) :
    ∀ (l : List Nat) (i : Nat) (s s1 : Scan), scan h ts l i s = .ok s1 →
      (s1.replaceIndex = s.replaceIndex ∧ s1.smallestChunk = s.smallestChunk ∧
        s1.smallestSize = s.smallestSize ∧
        ∀ (j q szq : Nat), (upToNull l)[j]? = some q → Fits h ts q szq →
          s.smallestSize ≤ szq) ∨
      (∃ (k c sz : Nat), (upToNull l)[k]? = some c ∧
        s1.replaceIndex = some (i + k) ∧ s1.smallestChunk = c ∧ s1.smallestSize = sz ∧
        Fits h ts c sz ∧ sz < s.smallestSize ∧
        ∀ (j q szq : Nat), (upToNull l)[j]? = some q → Fits h ts q szq →
          sz ≤ szq ∧ (szq = sz → k ≤ j)) := by
  intro l
  induction l with
  | nil => intro i s s1 hs; simp [scan] at hs
  | cons p rest ih =>
    intro i s s1 hs
    rw [scan] at hs
    by_cases hp : p = 0
    · simp only [hp, if_true] at hs
      have hs1 : s1 = s := (Except.ok.inj hs).symm
      subst hs1
      left
      refine ⟨rfl, rfl, rfl, ?_⟩
      intro j q szq hq
      simp [upToNull, hp] at hq
    · simp only [hp, if_false] at hs
      have htw : upToNull (p :: rest) = p :: upToNull rest := by
        simp [upToNull, List.takeWhile, hp]
      rw [htw]
      cases hst : load h p with
      | error e => simp [hst] at hs
      | ok status =>
        simp only [hst] at hs
        by_cases hfree : status = FREE
        · simp only [hfree, if_true] at hs
          cases hsz : load h (p + 4) with
          | error e => simp [hsz] at hs
          | ok sz =>
            simp only [hsz] at hs
            by_cases hfit : ts ≤ sz ∧ sz < s.smallestSize
            · simp only [hfit, and_self, if_true] at hs
              have hpfits : Fits h ts p sz := ⟨by rw [hst, hfree], hsz, hfit.1⟩
              rcases ih (i + 1) _ s1 hs with ⟨h1, h2, h3, h4⟩ | ⟨k, c, sz1, hk, h1, h2, h3, h4, h5, h6⟩
              · right
                refine ⟨0, p, sz, by simp, by simpa using h1, by simpa using h2,
                  by simpa using h3, hpfits, hfit.2, ?_⟩
                intro j q szq hq hqf
                cases j with
                | zero =>
                  simp at hq
                  subst hq
                  have := load_inj hqf.2.1 hsz
                  subst this
                  exact ⟨le_refl _, fun _ => le_refl _⟩
                | succ j =>
                  simp at hq
                  exact ⟨by simpa using h4 j q szq hq hqf, fun _ => Nat.zero_le _⟩
              · right
                simp only at h5
                refine ⟨k + 1, c, sz1, by simpa using hk, by rw [h1]; congr 1; omega, h2, h3, h4,
                  lt_trans h5 hfit.2, ?_⟩
                intro j q szq hq hqf
                cases j with
                | zero =>
                  simp at hq
                  subst hq
                  have := load_inj hqf.2.1 hsz
                  subst this
                  exact ⟨le_of_lt h5, fun he => absurd he (ne_of_gt h5)⟩
                | succ j =>
                  simp at hq
                  have := h6 j q szq hq hqf
                  exact ⟨this.1, fun he => Nat.succ_le_succ (this.2 he)⟩
            · simp only [hfit, if_false] at hs
              rcases ih (i + 1) _ s1 hs with ⟨h1, h2, h3, h4⟩ | ⟨k, c, sz1, hk, h1, h2, h3, h4, h5, h6⟩
              · left
                refine ⟨h1, h2, h3, ?_⟩
                intro j q szq hq hqf
                cases j with
                | zero =>
                  simp at hq
                  subst hq
                  have := load_inj hqf.2.1 hsz
                  subst this
                  have := hqf.2.2
                  by_contra hlt
                  exact hfit ⟨this, by omega⟩
                | succ j =>
                  simp at hq
                  exact h4 j q szq hq hqf
              · right
                simp only at h5
                refine ⟨k + 1, c, sz1, by simpa using hk, by rw [h1]; congr 1; omega, h2, h3, h4,
                  h5, ?_⟩
                intro j q szq hq hqf
                cases j with
                | zero =>
                  simp at hq
                  subst hq
                  have := load_inj hqf.2.1 hsz
                  subst this
                  have hts := hqf.2.2
                  have : s.smallestSize ≤ szq := by
                    by_contra hlt
                    exact hfit ⟨hts, by omega⟩
                  exact ⟨by omega, fun he => by omega⟩
                | succ j =>
                  simp at hq
                  have := h6 j q szq hq hqf
                  exact ⟨this.1, fun he => Nat.succ_le_succ (this.2 he)⟩
        · simp only [hfree, if_false] at hs
          rcases ih (i + 1) _ s1 hs with ⟨h1, h2, h3, h4⟩ | ⟨k, c, sz1, hk, h1, h2, h3, h4, h5, h6⟩
          · left
            refine ⟨h1, h2, h3, ?_⟩
            intro j q szq hq hqf
            cases j with
            | zero =>
              simp at hq
              subst hq
              exact absurd (load_inj hst hqf.1) hfree
            | succ j =>
              simp at hq
              exact h4 j q szq hq hqf
          · right
            simp only at h5
            refine ⟨k + 1, c, sz1, by simpa using hk, by rw [h1]; congr 1; omega, h2, h3, h4,
              h5, ?_⟩
            intro j q szq hq hqf
            cases j with
            | zero =>
              simp at hq
              subst hq
              exact absurd (load_inj hst hqf.1) hfree
            | succ j =>
              simp at hq
              have := h6 j q szq hq hqf
              exact ⟨this.1, fun he => Nat.succ_le_succ (this.2 he)⟩

/-- The paths of `myMalloc` that return a non-null pointer. -/
theorem myMalloc_inv {h h1 : Heap} {size : Int} {p : Nat}
    (hres : myMalloc h size = .ok (h1, p)) (hp : p ≠ 0) :
    ¬ size < 1 ∧ totalSizeOf size.toNat ≤ h.heapSize ∧
    ∃ (s : Scan) (idx : Nat) (hA : Heap) (ssz : Nat),
      scan h (totalSizeOf size.toNat) h.freeList 0 (scanInit h) = .ok s ∧
      s.replaceIndex = some idx ∧
      store h s.smallestChunk ALLOC = .ok hA ∧
      load hA (s.smallestChunk + 4) = .ok ssz ∧
      p = s.smallestChunk + HeaderSize ∧
      ((ssz < (totalSizeOf size.toNat + MIN_CHUNK + HeaderSize) % UINT ∧
          deleteList hA s.smallestChunk = .ok h1) ∨
       (¬ ssz < (totalSizeOf size.toNat + MIN_CHUNK + HeaderSize) % UINT ∧
          ∃ (hsz : Nat) (h2 h3 h4 : Heap) (fl : List Nat),
            load hA (s.lastHeader + 4) = .ok hsz ∧
            store hA (s.smallestChunk + totalSizeOf size.toNat) FREE = .ok h2 ∧
            store h2 (s.smallestChunk + totalSizeOf size.toNat + 4)
              ((hsz + UINT - totalSizeOf size.toNat) % UINT) = .ok h3 ∧
            store h3 (s.lastHeader + 4) (totalSizeOf size.toNat) = .ok h4 ∧
            slotSet h4.freeList idx (s.smallestChunk + totalSizeOf size.toNat) = .ok fl ∧
            h1 = { h4 with freeList := fl })) := by
  unfold myMalloc at hres
  by_cases hs1 : size < 1
  · simp only [hs1, if_true] at hres
    exact absurd (congrArg Prod.snd (Except.ok.inj hres)).symm hp
  simp only [hs1, if_false] at hres
  by_cases hts : totalSizeOf size.toNat > h.heapSize
  · simp only [hts, if_true] at hres
    exact absurd (congrArg Prod.snd (Except.ok.inj hres)).symm hp
  simp only [hts, if_false] at hres
  refine ⟨hs1, by omega, ?_⟩
  cases hsc : scan h (totalSizeOf size.toNat) h.freeList 0 (scanInit h) with
  | error e => simp [hsc] at hres
  | ok s =>
    simp only [hsc] at hres
    cases hri : s.replaceIndex with
    | none =>
      simp only [hri] at hres
      exact absurd (congrArg Prod.snd (Except.ok.inj hres)).symm hp
    | some idx =>
      simp only [hri] at hres
      cases hst : store h s.smallestChunk ALLOC with
      | error e => simp [hst] at hres
      | ok hA =>
        simp only [hst] at hres
        cases hl : load hA (s.smallestChunk + 4) with
        | error e => simp [hl] at hres
        | ok ssz =>
          simp only [hl] at hres
          refine ⟨s, idx, hA, ssz, rfl, hri, by assumption, by assumption, ?_⟩
          by_cases hsmall : ssz < (totalSizeOf size.toNat + MIN_CHUNK + HeaderSize) % UINT
          · simp only [hsmall, if_true] at hres
            cases hd : deleteList hA s.smallestChunk with
            | error e => simp [hd] at hres
            | ok h2 =>
              simp only [hd] at hres
              have := Except.ok.inj hres
              simp only [Prod.mk.injEq] at this
              exact ⟨this.2.symm, Or.inl ⟨hsmall, by rw [this.1]⟩⟩
          · simp only [hsmall, if_false] at hres
            cases h5 : load hA (s.lastHeader + 4) with
            | error e => simp [h5] at hres
            | ok hsz =>
              simp only [h5] at hres
              cases h6 : store hA (s.smallestChunk + totalSizeOf size.toNat) FREE with
              | error e => simp [h6] at hres
              | ok h2 =>
                simp only [h6] at hres
                cases h7 : store h2 (s.smallestChunk + totalSizeOf size.toNat + 4)
                    ((hsz + UINT - totalSizeOf size.toNat) % UINT) with
                | error e => simp [h7] at hres
                | ok h3 =>
                  simp only [h7] at hres
                  cases h8 : store h3 (s.lastHeader + 4) (totalSizeOf size.toNat) with
                  | error e => simp [h8] at hres
                  | ok h4 =>
                    simp only [h8] at hres
                    cases h9 : slotSet h4.freeList idx
                        (s.smallestChunk + totalSizeOf size.toNat) with
                    | error e => simp [h9] at hres
                    | ok fl =>
                      simp only [h9] at hres
                      have := Except.ok.inj hres
                      simp only [Prod.mk.injEq] at this
                      exact ⟨this.2.symm, Or.inr ⟨hsmall, hsz, h2, h3, h4, fl, rfl, rfl,
                        by assumption, by assumption, by assumption, this.1.symm⟩⟩


/-- C5: whenever `myMalloc (size)` returns a non-null pointer `p`, the header at
`p - 8` was, before the call, a free-list entry (at index `k`) with status
`FREE` and a size of at least `totalSize`; every free-list entry with status
`FREE` and size at least `totalSize` is at least as large, and those of the
same size have an index of at least `k`. -/
theorem C5_best_fit (h h1 : Heap) (size : Int) (p : Nat)
    (hres : myMalloc h size = .ok (h1, p)) (hp : p ≠ 0) :
    ∃ (k c sz : Nat), (entries h)[k]? = some c ∧ p = c + HeaderSize ∧
      Fits h (totalSizeOf size.toNat) c sz ∧
      ∀ (j q szq : Nat), (entries h)[j]? = some q → Fits h (totalSizeOf size.toNat) q szq →
        sz ≤ szq ∧ (szq = sz → k ≤ j) := by
  obtain ⟨-, -, s, idx, hA, ssz, hscan, hri, -, -, hpeq, -⟩ := myMalloc_inv hres hp
  rcases scan_spec h _ _ _ _ _ hscan with ⟨h1, -⟩ | ⟨k, c, sz, hk, -, h2, -, h4, -, h6⟩
  · rw [hri] at h1
    simp [scanInit] at h1
  · exact ⟨k, c, sz, hk, by rw [hpeq, h2], h4, h6⟩

/-- C5, on a run: with the free chunks `(FREE, 108)` at 65536 and `(FREE, 3972)`
at 65660, `myMalloc (20)` returns 65544, the payload of the smaller one. -/
theorem C5_best_fit_witness :
    ∃ (k c sz : Nat), (entries (after [.malloc 100, .malloc 8, .free 0]).heap)[k]? = some c ∧
      65544 = c + HeaderSize ∧
      Fits (after [.malloc 100, .malloc 8, .free 0]).heap (totalSizeOf (20 : Int).toNat) c sz ∧
      ∀ (j q szq : Nat),
        (entries (after [.malloc 100, .malloc 8, .free 0]).heap)[j]? = some q →
        Fits (after [.malloc 100, .malloc 8, .free 0]).heap (totalSizeOf (20 : Int).toNat) q szq →
        sz ≤ szq ∧ (szq = sz → k ≤ j) :=
  C5_best_fit (after [.malloc 100, .malloc 8, .free 0]).heap
    (heapOf fresh.heap (myMalloc (after [.malloc 100, .malloc 8, .free 0]).heap 20)) 20 65544
    (by rfl) (by decide)

/-! ## Allocation failure -/

/-- The paths of `myMalloc` that return `NULL` leave the state as it was. -/
theorem myMalloc_null_inv {h h1 : Heap} {size : Int}
    (hres : myMalloc h size = .ok (h1, 0)) :
    h1 = h ∧ (size < 1 ∨ h.heapSize < totalSizeOf size.toNat ∨
      ∃ s : Scan, scan h (totalSizeOf size.toNat) h.freeList 0 (scanInit h) = .ok s ∧
        s.replaceIndex = none) := by
  by_cases hs1 : size < 1
  · simp only [myMalloc, hs1, if_true] at hres
    exact ⟨(congrArg Prod.fst (Except.ok.inj hres)).symm, Or.inl hs1⟩
  by_cases hts : totalSizeOf size.toNat > h.heapSize
  · simp only [myMalloc, hs1, if_false, hts, if_true] at hres
    exact ⟨(congrArg Prod.fst (Except.ok.inj hres)).symm, Or.inr (Or.inl hts)⟩
  cases hsc : scan h (totalSizeOf size.toNat) h.freeList 0 (scanInit h) with
  | error e => simp [myMalloc, hs1, hts, hsc] at hres
  | ok s =>
    cases hri : s.replaceIndex with
    | none =>
      simp only [myMalloc, hs1, if_false, hts, hsc, hri] at hres
      exact ⟨(congrArg Prod.fst (Except.ok.inj hres)).symm, Or.inr (Or.inr ⟨s, rfl, hri⟩)⟩
    | some idx =>
      exfalso
      by_contra hcon
      have key : ∀ p, myMalloc h size = .ok (h1, p) → p ≠ 0 := by
        intro p hp h0
        subst h0
        simp only [myMalloc, hs1, if_false, hts, hsc, hri] at hp
        split at hp
        · simp at hp
        · split at hp
          · simp at hp
          · split at hp
            · split at hp
              · simp at hp
              · have := congrArg Prod.snd (Except.ok.inj hp)
                simp [HeaderSize] at this
            · split at hp
              · simp at hp
              · split at hp
                · simp at hp
                · split at hp
                  · simp at hp
                  · split at hp
                    · simp at hp
                    · split at hp
                      · simp at hp
                      · have := congrArg Prod.snd (Except.ok.inj hp)
                        simp [HeaderSize] at this
      exact key 0 hres rfl

/-- The search loop ends without a fault when the slots it is entered with
hold a `NULL` and the entries before it are headers inside the arena buffer. -/
theorem scan_total (h : Heap) (ts : Nat) :
    ∀ (l : List Nat) (i : Nat) (s : Scan), 0 ∈ l →
      (∀ q ∈ upToNull l, h.heapMem ≤ q ∧ q + HeaderSize ≤ h.heapMem + h.memBytes) →
      ∃ s1, scan h ts l i s = .ok s1 := by
  intro l
  induction l with
  | nil => intro i s h0; simp at h0
  | cons p rest ih =>
    intro i s h0 hin
    rw [scan]
    by_cases hp : p = 0
    · simp [hp]
    · simp only [hp, if_false]
      have htw : upToNull (p :: rest) = p :: upToNull rest := by
        simp [upToNull, List.takeWhile, hp]
      rw [htw] at hin
      have hpin := hin p (by simp)
      have h0r : 0 ∈ rest := by
        rcases List.mem_cons.mp h0 with h | h
        · exact absurd h.symm hp
        · exact h
      have hinr : ∀ q ∈ upToNull rest, h.heapMem ≤ q ∧ q + HeaderSize ≤ h.heapMem + h.memBytes :=
        fun q hq => hin q (List.mem_cons_of_mem _ hq)
      have hl1 : load h p = .ok (read32 h.mem p) := by
        simp only [load, HeaderSize] at *
        rw [if_pos ⟨hpin.1, by omega⟩]
      have hl2 : load h (p + 4) = .ok (read32 h.mem (p + 4)) := by
        simp only [load, HeaderSize] at *
        rw [if_pos ⟨by omega, by omega⟩]
      simp only [hl1, hl2]
      split
      · split
        · exact ih _ _ h0r hinr
        · exact ih _ _ h0r hinr
      · exact ih _ _ h0r hinr

/-- C6 (as amended): in a state whose free list is NULL-terminated within its
capacity, whose entries are headers inside the arena buffer and whose
`heapSize + 1` is a `uint`, `myMalloc (size)` returns `NULL` if and only if
`size < 1`, or `totalSize` exceeds `heapSize`, or no free-list entry has status
`FREE` and a size from `totalSize` to `heapSize`; and whenever it returns
`NULL` the state (arena bytes, free list, `nFree`) is the one before the call. -/
theorem C6_null_iff (h : Heap) (size : Int)
    (hterm : 0 ∈ h.freeList)
    (hin : ∀ q ∈ entries h, h.heapMem ≤ q ∧ q + HeaderSize ≤ h.heapMem + h.memBytes)
    (hsize : h.heapSize + 1 < UINT) :
    ((∃ h1, myMalloc h size = .ok (h1, 0)) ↔
      (size < 1 ∨ h.heapSize < totalSizeOf size.toNat ∨
        ¬ ∃ (q szq : Nat), q ∈ entries h ∧ Fits h (totalSizeOf size.toNat) q szq ∧
          szq ≤ h.heapSize)) ∧
    (∀ h1, myMalloc h size = .ok (h1, 0) → h1 = h) := by
  have hinit : (scanInit h).smallestSize = h.heapSize + 1 := by
    simp [scanInit, Nat.mod_eq_of_lt hsize]
  refine ⟨⟨?_, ?_⟩, fun h1 hres => (myMalloc_null_inv hres).1⟩
  · rintro ⟨h1, hres⟩
    rcases (myMalloc_null_inv hres).2 with hlt | hbig | ⟨s, hscan, hnone⟩
    · exact Or.inl hlt
    · exact Or.inr (Or.inl hbig)
    · refine Or.inr (Or.inr ?_)
      rintro ⟨q, szq, hq, hfit, hle⟩
      obtain ⟨j, hj⟩ := List.getElem?_of_mem hq
      rcases scan_spec h _ _ _ _ _ hscan with ⟨-, -, -, hall⟩ | ⟨k, c, sz, -, hsome, -⟩
      · have := hall j q szq hj hfit
        rw [hinit] at this
        omega
      · rw [hnone] at hsome
        exact Option.noConfusion hsome
  · intro hrhs
    by_cases hs1 : size < 1
    · exact ⟨h, by simp [myMalloc, hs1]⟩
    by_cases hts : totalSizeOf size.toNat > h.heapSize
    · exact ⟨h, by simp [myMalloc, hs1, hts]⟩
    have hnofit : ¬ ∃ (q szq : Nat), q ∈ entries h ∧ Fits h (totalSizeOf size.toNat) q szq ∧
        szq ≤ h.heapSize := by
      rcases hrhs with h1 | h1 | h1
      · exact absurd h1 hs1
      · exact absurd h1 hts
      · exact h1
    obtain ⟨s, hscan⟩ := scan_total h (totalSizeOf size.toNat) h.freeList 0 (scanInit h) hterm hin
    rcases scan_spec h _ _ _ _ _ hscan with ⟨hri, -⟩ | ⟨k, c, sz, hk, -, -, -, hfit, hlt, -⟩
    · refine ⟨h, ?_⟩
      have hri2 : s.replaceIndex = none := by rw [hri]; rfl
      simp [myMalloc, hs1, hts, hscan, hri2]
    · exfalso
      rw [hinit] at hlt
      exact hnofit ⟨c, sz, List.getElem?_mem hk, hfit, by omega⟩

/-- C6, on a fresh arena of 4096 bytes: the request for 5000 bytes is refused
and leaves the state alone. -/
theorem C6_null_iff_witness :
    ((∃ h1, myMalloc fresh.heap 5000 = .ok (h1, 0)) ↔
      ((5000 : Int) < 1 ∨ fresh.heap.heapSize < totalSizeOf (5000 : Int).toNat ∨
        ¬ ∃ (q szq : Nat), q ∈ entries fresh.heap ∧
          Fits fresh.heap (totalSizeOf (5000 : Int).toNat) q szq ∧
          szq ≤ fresh.heap.heapSize)) ∧
    (∀ h1, myMalloc fresh.heap 5000 = .ok (h1, 0) → h1 = fresh.heap) :=
  C6_null_iff fresh.heap 5000 (by decide) (by decide) (by decide)

/-- C6 (as stated, refuted): in the reachable state after `A = myMalloc (100)`,
`myMalloc (8)`, `myFree (A)`, `myMalloc (20)`, `myMalloc (3000)` the free list
is NULL-terminated and its entry 68572 has status `FREE` and size 4294964316.
`myMalloc (3500)` (`totalSize` 3508, `heapSize` 4096) returns `NULL` although
that entry has status `FREE` and a size of at least `totalSize`. -/
theorem C6_null_despite_fitting_entry :
    ∃ s : Session,
      fresh.run [.malloc 100, .malloc 8, .free 0, .malloc 20, .malloc 3000] = some s ∧
      0 ∈ s.heap.freeList ∧
      entries s.heap = [68572, 65660] ∧
      Fits s.heap (totalSizeOf (3500 : Int).toNat) 68572 4294964316 ∧
      ¬ ((∃ h1, myMalloc s.heap 3500 = .ok (h1, 0)) ↔
          ((3500 : Int) < 1 ∨ s.heap.heapSize < totalSizeOf (3500 : Int).toNat ∨
            ¬ ∃ (q szq : Nat), q ∈ entries s.heap ∧
              Fits s.heap (totalSizeOf (3500 : Int).toNat) q szq)) := by
  have hfit : Fits (after [.malloc 100, .malloc 8, .free 0, .malloc 20, .malloc 3000]).heap
      (totalSizeOf (3500 : Int).toNat) 68572 4294964316 := ⟨by decide, by decide, by decide⟩
  refine ⟨after [.malloc 100, .malloc 8, .free 0, .malloc 20, .malloc 3000], rfl, by decide,
    by decide, hfit, ?_⟩
  intro hiff
  have hnull : ∃ h1, myMalloc
      (after [.malloc 100, .malloc 8, .free 0, .malloc 20, .malloc 3000]).heap 3500
      = .ok (h1, 0) := ⟨_, rfl⟩
  rcases hiff.mp hnull with h1 | h1 | h1
  · exact absurd h1 (by decide)
  · exact absurd h1 (by decide)
  · exact h1 ⟨68572, 4294964316, by decide, hfit⟩

/-! ## Lists of slots -/

theorem findSlot_append (p : Nat) (A T : List Nat) (i : Nat) (hA : p ∉ A) :
    findSlot p (A ++ p :: T) i = .ok (i + A.length) := by
  induction A generalizing i with
  | nil => simp [findSlot]
  | cons x A ih =>
    have hx : x ≠ p := fun e => hA (by simp [e])
    have hA2 : p ∉ A := fun e => hA (List.mem_cons_of_mem _ e)
    rw [List.cons_append, findSlot, if_neg hx, ih (i + 1) hA2, List.length_cons]
    congr 1
    omega

theorem insertPos_append (p y : Nat) (A T : List Nat) (i : Nat) (hA : ∀ x ∈ A, x < p)
    (hy : p ≤ y) : insertPos p (A ++ y :: T) i = .ok (i + A.length) := by
  induction A generalizing i with
  | nil => simp [insertPos, Nat.not_lt.mpr hy]
  | cons x A ih =>
    have hx : p > x := hA x (by simp)
    have hA2 : ∀ z ∈ A, z < p := fun z hz => hA z (List.mem_cons_of_mem _ hz)
    rw [List.cons_append, insertPos, if_pos hx, ih (i + 1) hA2, List.length_cons]
    congr 1
    omega

/-- An `insertPos` that is entered with no slot at or above `p` leaves the
buffer: it reads the slot one past the last. -/
theorem insertPos_all_below (p : Nat) (l : List Nat) (i : Nat) (hl : ∀ x ∈ l, x < p) :
    insertPos p l i = .error (.slot ((i + l.length : Nat) : Int)) := by
  induction l generalizing i with
  | nil => simp [insertPos]
  | cons x l ih =>
    have hx : p > x := hl x (by simp)
    have hl2 : ∀ z ∈ l, z < p := fun z hz => hl z (List.mem_cons_of_mem _ hz)
    rw [insertPos, if_pos hx, ih (i + 1) hl2, List.length_cons]
    congr 3
    omega

theorem slotGet_mid (A : List Nat) (x : Nat) (T : List Nat) :
    slotGet (A ++ x :: T) A.length = .ok x := by
  have h : (A ++ x :: T)[A.length]? = some x := by
    rw [List.getElem?_append_right (Nat.le_refl _)]
    simp
  simp [slotGet, h]

theorem slotSet_mid (A : List Nat) (x v : Nat) (T : List Nat) :
    slotSet (A ++ x :: T) A.length v = .ok (A ++ v :: T) := by
  simp [slotSet]

theorem shiftDown_ok : ∀ (cnt : Nat) (A : List Nat) (x : Nat) (T : List Nat),
    cnt ≤ T.length →
    shiftDown cnt (A ++ x :: T) A.length = .ok (A ++ T.take cnt ++ (x :: T).drop cnt) := by
  intro cnt
  induction cnt with
  | zero => intro A x T _; simp [shiftDown]
  | succ cnt ih =>
    intro A x T hc
    cases T with
    | nil => simp at hc
    | cons t T =>
      have hget : slotGet (A ++ x :: t :: T) (A.length + 1) = .ok t := by
        have := slotGet_mid (A ++ [x]) t T
        simpa using this
      have hlen : A.length + 1 = (A ++ [t]).length := by simp
      simp only [shiftDown, hget, slotSet_mid]
      have := ih (A ++ [t]) t T (by simpa using hc)
      rw [hlen]
      simpa using this

theorem shiftDown_fits : ∀ (cnt : Nat) (A : List Nat) (x : Nat) (T fl : List Nat),
    shiftDown cnt (A ++ x :: T) A.length = .ok fl → cnt ≤ T.length := by
  intro cnt
  induction cnt with
  | zero => intro A x T fl _; exact Nat.zero_le _
  | succ cnt ih =>
    intro A x T fl hs
    cases T with
    | nil =>
      have hnone : (A ++ [x])[A.length + 1]? = none := by
        rw [List.getElem?_eq_none_iff]
        simp
      simp [shiftDown, slotGet, hnone] at hs
    | cons t T =>
      have hget : slotGet (A ++ x :: t :: T) (A.length + 1) = .ok t := by
        have := slotGet_mid (A ++ [x]) t T
        simpa using this
      have hlen : A.length + 1 = (A ++ [t]).length := by simp
      simp only [shiftDown, hget, slotSet_mid] at hs
      rw [hlen] at hs
      have := ih (A ++ [t]) t T fl (by simpa using hs)
      simpa using this

theorem shiftUp_ok : ∀ (cnt : Nat) (A T : List Nat) (prev : Nat),
    cnt ≤ T.length →
    shiftUp cnt (A ++ T) A.length prev = .ok (A ++ (prev :: T).take cnt ++ T.drop cnt) := by
  intro cnt
  induction cnt with
  | zero => intro A T prev _; simp [shiftUp]
  | succ cnt ih =>
    intro A T prev hc
    cases T with
    | nil => simp at hc
    | cons t T =>
      have hlen : A.length + 1 = (A ++ [prev]).length := by simp
      simp only [shiftUp, slotGet_mid, slotSet_mid]
      have := ih (A ++ [prev]) T t (by simpa using hc)
      rw [hlen]
      simpa using this

theorem pad_down (X : List Nat) (x k cnt : Nat) (h1 : X.length + 1 ≤ cnt)
    (h2 : cnt ≤ X.length + k) :
    (X ++ List.replicate k 0).take cnt ++ (x :: (X ++ List.replicate k 0)).drop cnt
      = X ++ List.replicate (k + 1) 0 := by
  obtain ⟨d, rfl⟩ : ∃ d, cnt = X.length + 1 + d := ⟨cnt - (X.length + 1), by omega⟩
  have e1 : (X ++ List.replicate k 0).take (X.length + 1 + d)
      = X ++ List.replicate (1 + d) 0 := by
    rw [List.take_append_eq_append_take, List.take_of_length_le (by omega)]
    simp only [List.take_replicate]
    congr 2
    omega
  have e2 : (x :: (X ++ List.replicate k 0)).drop (X.length + 1 + d)
      = List.replicate (k - d) 0 := by
    have : X.length + 1 + d = (X.length + d) + 1 := by omega
    rw [this, List.drop_succ_cons, List.drop_append_eq_append_drop,
      List.drop_of_length_le (by omega)]
    simp only [List.drop_replicate, List.nil_append]
    congr 1
    omega
  rw [e1, e2, List.append_assoc, List.append_replicate_replicate]
  congr 2
  omega

theorem pad_up (X : List Nat) (y k cnt : Nat) (h1 : X.length + 1 ≤ cnt)
    (h2 : cnt ≤ X.length + k) :
    (y :: (X ++ List.replicate k 0)).take cnt ++ (X ++ List.replicate k 0).drop cnt
      = y :: X ++ List.replicate (k - 1) 0 := by
  obtain ⟨d, rfl⟩ : ∃ d, cnt = X.length + 1 + d := ⟨cnt - (X.length + 1), by omega⟩
  have e1 : (y :: (X ++ List.replicate k 0)).take (X.length + 1 + d)
      = y :: X ++ List.replicate d 0 := by
    have : X.length + 1 + d = (X.length + d) + 1 := by omega
    rw [this, List.take_succ_cons, List.take_append_eq_append_take,
      List.take_of_length_le (by omega)]
    simp only [List.take_replicate, List.cons_append]
    congr 3
    omega
  have e2 : (X ++ List.replicate k 0).drop (X.length + 1 + d)
      = List.replicate (k - (1 + d)) 0 := by
    rw [List.drop_append_eq_append_drop, List.drop_of_length_le (by omega)]
    simp only [List.drop_replicate, List.nil_append]
    congr 1
    omega
  rw [e1, e2, List.append_assoc, List.append_replicate_replicate]
  congr 2
  omega


/-! ## Bytes of the arena -/

theorem read32_congr {m m1 : Nat → Nat} {a : Nat}
    (hm : ∀ x, a ≤ x → x < a + 4 → m1 x = m x) : read32 m1 a = read32 m a := by
  simp only [read32, hm a (le_refl _) (by omega), hm (a + 1) (by omega) (by omega),
    hm (a + 2) (by omega) (by omega), hm (a + 3) (by omega) (by omega)]

theorem write32_out (m : Nat → Nat) (a v x : Nat) (hx : x < a ∨ a + 4 ≤ x) :
    write32 m a v x = m x := by
  have h0 : x ≠ a := by omega
  have h1 : x ≠ a + 1 := by omega
  have h2 : x ≠ a + 2 := by omega
  have h3 : x ≠ a + 3 := by omega
  simp [write32, h0, h1, h2, h3]

theorem memset0_out (m : Nat → Nat) (p n x : Nat) (hx : x < p ∨ p + n ≤ x) :
    memset0 m p n x = m x := by
  have : ¬ (p ≤ x ∧ x < p + n) := by omega
  simp [memset0, this]

theorem read32_write32_same (m : Nat → Nat) (a v : Nat) (hv : v < UINT) :
    read32 (write32 m a v) a = v := by
  simp only [UINT] at hv
  simp [read32, write32]
  omega

theorem read32_write32_other (m : Nat → Nat) (a v b : Nat) (hb : b + 4 ≤ a ∨ a + 4 ≤ b) :
    read32 (write32 m a v) b = read32 m b :=
  read32_congr fun x h1 h2 => write32_out m a v x (by omega)

theorem store_eq {h h1 : Heap} {a v : Nat} (hs : store h a v = .ok h1) :
    h1 = { h with mem := write32 h.mem a v } ∧
      h.heapMem ≤ a ∧ a + 4 ≤ h.heapMem + h.memBytes := by
  unfold store at hs
  split at hs
  · rename_i hc
    exact ⟨(Except.ok.inj hs).symm, hc⟩
  · simp at hs

theorem load_eq {h : Heap} {a v : Nat} (hl : load h a = .ok v) :
    v = read32 h.mem a ∧ h.heapMem ≤ a ∧ a + 4 ≤ h.heapMem + h.memBytes := by
  unfold load at hl
  split at hl
  · rename_i hc
    exact ⟨(Except.ok.inj hl).symm, hc⟩
  · simp at hl

theorem load_of_read {h : Heap} {a : Nat} (h1 : h.heapMem ≤ a)
    (h2 : a + 4 ≤ h.heapMem + h.memBytes) : load h a = .ok (read32 h.mem a) := by
  simp [load, h1, h2]

theorem store_of_bounds {h : Heap} {a : Nat} (v : Nat) (h1 : h.heapMem ≤ a)
    (h2 : a + 4 ≤ h.heapMem + h.memBytes) :
    store h a v = .ok { h with mem := write32 h.mem a v } := by
  simp [store, h1, h2]

/-! ## Chunk sequences -/

theorem span_append (xs ys : List (Nat × Nat)) : span (xs ++ ys) = span xs + span ys := by
  induction xs with
  | nil => simp [span]
  | cons c xs ih => simp [span, ih]; omega

theorem Shaped.cons {c : Nat × Nat} {cs : List (Nat × Nat)} (h : Shaped (c :: cs)) :
    ((c.1 = FREE ∨ c.1 = ALLOC) ∧ HeaderSize ≤ c.2) ∧ Shaped cs :=
  ⟨h c (by simp), fun d hd => h d (List.mem_cons_of_mem _ hd)⟩

theorem Shaped.append {xs ys : List (Nat × Nat)} (h : Shaped (xs ++ ys)) :
    Shaped xs ∧ Shaped ys :=
  ⟨fun d hd => h d (List.mem_append_left _ hd), fun d hd => h d (List.mem_append_right _ hd)⟩

theorem freeAddrs_append (a : Nat) (xs ys : List (Nat × Nat)) :
    freeAddrs a (xs ++ ys) = freeAddrs a xs ++ freeAddrs (a + span xs) ys := by
  induction xs generalizing a with
  | nil => simp [freeAddrs, span]
  | cons c xs ih =>
    simp only [List.cons_append, freeAddrs, span]
    split <;> simp [ih, Nat.add_assoc]

theorem freeAddrs_bounds {a : Nat} {cs : List (Nat × Nat)} (hs : Shaped cs) {x : Nat}
    (hx : x ∈ freeAddrs a cs) : a ≤ x ∧ x + HeaderSize ≤ a + span cs := by
  induction cs generalizing a with
  | nil => simp [freeAddrs] at hx
  | cons c cs ih =>
    obtain ⟨⟨-, hc⟩, hs2⟩ := hs.cons
    simp only [freeAddrs] at hx
    simp only [span]
    split at hx
    · rcases List.mem_cons.mp hx with h | h
      · subst h
        have := Nat.zero_le (span cs)
        omega
      · have := ih hs2 h
        omega
    · have := ih hs2 hx
      omega

theorem freeAddrs_pairwise {a : Nat} {cs : List (Nat × Nat)} (hs : Shaped cs) :
    (freeAddrs a cs).Pairwise (fun x y => x < y) := by
  induction cs generalizing a with
  | nil => simp [freeAddrs]
  | cons c cs ih =>
    obtain ⟨⟨-, hc⟩, hs2⟩ := hs.cons
    simp only [freeAddrs]
    split
    · refine List.pairwise_cons.mpr ⟨fun y hy => ?_, ih hs2⟩
      have := (freeAddrs_bounds hs2 hy).1
      simp only [HeaderSize] at hc
      omega
    · exact ih hs2

theorem upToNull_pad (F : List Nat) (k : Nat) (hF : ∀ x ∈ F, x ≠ 0) :
    upToNull (F ++ List.replicate k 0) = F := by
  induction F with
  | nil =>
    cases k with
    | zero => simp [upToNull]
    | succ k => simp [upToNull, List.replicate_succ]
  | cons x F ih =>
    have hx : x ≠ 0 := hF x (by simp)
    have hcons : upToNull (x :: (F ++ List.replicate k 0))
        = x :: upToNull (F ++ List.replicate k 0) := by
      simp [upToNull, List.takeWhile_cons, hx]
    rw [List.cons_append, hcons, ih (fun y hy => hF y (List.mem_cons_of_mem _ hy))]

/-! ## `deleteList` and `insertList` on a padded list -/

theorem deleteList_ok (h : Heap) (A X : List Nat) (c k : Nat)
    (hfl : h.freeList = A ++ c :: (X ++ List.replicate k 0)) (hc : c ∉ A)
    (hn : A.length + 1 + X.length ≤ h.nFree) (hcap : h.nFree ≤ A.length + X.length + k) :
    deleteList h c = .ok { h with freeList := A ++ (X ++ List.replicate (k + 1) 0),
                                  nFree := (h.nFree + UINT - 1) % UINT } := by
  have hfind := findSlot_append c A (X ++ List.replicate k 0) 0 hc
  rw [Nat.zero_add] at hfind
  have hshift := shiftDown_ok (h.nFree - A.length) A c (X ++ List.replicate k 0)
    (by simp; omega)
  rw [List.append_assoc, pad_down X c k (h.nFree - A.length) (by omega) (by omega)] at hshift
  simp only [deleteList, hfl, hfind, hshift, List.append_assoc]

theorem deleteList_inv {h h1 : Heap} (A X : List Nat) (c k : Nat)
    (hfl : h.freeList = A ++ c :: (X ++ List.replicate k 0)) (hc : c ∉ A)
    (hn : A.length + 1 + X.length ≤ h.nFree) (hres : deleteList h c = .ok h1) :
    h1 = { h with freeList := A ++ (X ++ List.replicate (k + 1) 0),
                  nFree := (h.nFree + UINT - 1) % UINT } := by
  have hfind := findSlot_append c A (X ++ List.replicate k 0) 0 hc
  rw [Nat.zero_add] at hfind
  have hcap : h.nFree ≤ A.length + X.length + k := by
    cases hsd : shiftDown (h.nFree - A.length) (A ++ c :: (X ++ List.replicate k 0)) A.length with
    | error e => simp [deleteList, hfl, hfind, hsd] at hres
    | ok fl =>
      have := shiftDown_fits _ _ _ _ _ hsd
      simp at this
      omega
  rw [deleteList_ok h A X c k hfl hc hn hcap] at hres
  exact (Except.ok.inj hres).symm

theorem insertList_ok (h : Heap) (A X : List Nat) (p y k : Nat)
    (hfl : h.freeList = A ++ y :: (X ++ List.replicate k 0))
    (hA : ∀ x ∈ A, x < p) (hy : p ≤ y)
    (hn : A.length + 1 + X.length ≤ h.nFree) (hcap : h.nFree ≤ A.length + X.length + k)
    (hu : h.nFree + 1 < UINT) :
    insertList h p = .ok ({ h with freeList := A ++ p :: y :: (X ++ List.replicate (k - 1) 0),
                                   nFree := h.nFree + 1 }, A.length) := by
  have hpos := insertPos_append p y A (X ++ List.replicate k 0) 0 hA hy
  rw [Nat.zero_add] at hpos
  have hmod : (h.nFree + 1) % UINT = h.nFree + 1 := Nat.mod_eq_of_lt hu
  have hlen : A.length + 1 = (A ++ [p]).length := by simp
  have hshift := shiftUp_ok (h.nFree + 1 - (A.length + 1)) (A ++ [p])
    (X ++ List.replicate k 0) y (by simp; omega)
  rw [List.append_assoc (A ++ [p]), pad_up X y k (h.nFree + 1 - (A.length + 1)) (by omega) (by omega)] at hshift
  simp only [List.append_assoc, List.singleton_append, List.length_append,
    List.length_singleton] at hshift
  simp only [insertList, hfl, hpos, slotGet_mid, slotSet_mid, hmod, hshift, List.cons_append]

/-! ## Allocation without a split -/

/-- The no-split path when the call returns: in a state with the layout `cs`
(`heapMem` not `NULL`, `heapSize` recorded from an `int`), when
`myMalloc (size)` returns a non-null pointer `p` and the chosen chunk
`c = p - 8` has `c.size - totalSize < 40`, then after the call `c` has status
`ALLOC` and the size it had, `c` is in no slot of the free list, the free list
is the old one with `c` taken out (the other entries in their order, one more
`NULL` at the end), and no byte of the arena other than the four status bytes
of `c` has changed.  Whether the call returns is another matter: `deleteList`
reads the slot of index `nFree`. -/
theorem myMalloc_no_split (h h1 : Heap) (cs : List (Nat × Nat)) (size : Int) (p sz : Nat)
    (hlay : Layout h cs) (hbase : 0 < h.heapMem) (hint : h.heapSize < 2147483648)
    (hres : myMalloc h size = .ok (h1, p)) (hp : p ≠ 0)
    (hsz : load h (p - HeaderSize + 4) = .ok sz)
    (hsmall : sz - totalSizeOf size.toNat < MIN_CHUNK + HeaderSize) :
    load h1 (p - HeaderSize) = .ok ALLOC ∧ load h1 (p - HeaderSize + 4) = .ok sz ∧
    (p - HeaderSize) ∉ h1.freeList ∧
    h1.freeList = h.freeList.erase (p - HeaderSize) ++ [0] ∧
    (∀ x, x < p - HeaderSize ∨ p - HeaderSize + 4 ≤ x → h1.mem x = h.mem x) := by
  obtain ⟨-, hts, s, idx, hA, ssz, hscan, hri, hst, hl, hpeq, hbranch⟩ := myMalloc_inv hres hp
  rcases scan_spec h _ _ _ _ _ hscan with ⟨hnone, -⟩ | ⟨k, c, sz1, hk, -, hc, -, hfit, -, -⟩
  · rw [hri] at hnone
    simp [scanInit] at hnone
  rw [hc] at hst hl hpeq hbranch
  have hpc : p - HeaderSize = c := by rw [hpeq]; simp
  rw [hpc] at hsz ⊢
  have hszeq : sz1 = sz := load_inj hfit.2.1 hsz
  subst hszeq
  obtain ⟨hAeq, hb1, hb2⟩ := store_eq hst
  obtain ⟨hszr, hb3, hb4⟩ := load_eq hsz
  have hssz : ssz = sz1 := by
    obtain ⟨e, -, -⟩ := load_eq hl
    rw [e, hAeq, hszr]
    exact read32_write32_other _ _ _ _ (Or.inr (le_refl _))
  subst hssz
  have hmod : (totalSizeOf size.toNat + MIN_CHUNK + HeaderSize) % UINT
      = totalSizeOf size.toNat + MIN_CHUNK + HeaderSize := by
    have := hint
    apply Nat.mod_eq_of_lt
    simp only [MIN_CHUNK, HeaderSize, UINT]
    omega
  rw [hmod] at hbranch
  have hlt : ssz < totalSizeOf size.toNat + MIN_CHUNK + HeaderSize := by
    have := hfit.2.2
    omega
  rcases hbranch with ⟨-, hdel⟩ | ⟨hno, -⟩
  swap
  · exact absurd hlt hno
  obtain ⟨kk, hlist⟩ := hlay.list
  have hnz : ∀ x ∈ freeAddrs h.heapMem cs, x ≠ 0 := by
    intro x hx
    have := (freeAddrs_bounds hlay.shaped hx).1
    have := hbase
    omega
  have hcF : c ∈ freeAddrs h.heapMem cs := by
    have := List.getElem?_mem hk
    unfold entries at this
    rwa [hlist, upToNull_pad _ _ hnz] at this
  obtain ⟨A, X, hAX⟩ := List.append_of_mem hcF
  have hpw := freeAddrs_pairwise (a := h.heapMem) hlay.shaped
  rw [hAX] at hpw
  have hcA : c ∉ A := by
    intro hmem
    have := (List.pairwise_append.mp hpw).2.2 c hmem c (by simp)
    omega
  have hcX : c ∉ X := by
    intro hmem
    have := (List.pairwise_cons.mp (List.pairwise_append.mp hpw).2.1).1 c hmem
    omega
  have hflA : hA.freeList = A ++ c :: (X ++ List.replicate kk 0) := by
    rw [hAeq]
    simp [hlist, hAX]
  have hcount : A.length + 1 + X.length ≤ hA.nFree := by
    have := hlay.count
    rw [hAX] at this
    rw [hAeq]
    simp at this ⊢
    omega
  have h1eq := deleteList_inv A X c kk hflA hcA hcount hdel
  have hmem1 : h1.mem = write32 h.mem c ALLOC := by rw [h1eq, hAeq]
  have hbuf1 : h1.heapMem = h.heapMem ∧ h1.memBytes = h.memBytes := by
    rw [h1eq, hAeq]
    exact ⟨rfl, rfl⟩
  have hfl1 : h1.freeList = A ++ (X ++ List.replicate (kk + 1) 0) := by rw [h1eq]
  have hc0 : c ≠ 0 := hnz c hcF
  refine ⟨?_, ?_, ?_, ?_, ?_⟩
  · rw [load_of_read (by rw [hbuf1.1]; exact hb1) (by rw [hbuf1.1, hbuf1.2]; exact hb2), hmem1,
      read32_write32_same _ _ _ (by decide)]
  · rw [load_of_read (by rw [hbuf1.1]; exact hb3) (by rw [hbuf1.1, hbuf1.2]; exact hb4), hmem1,
      read32_write32_other _ _ _ _ (Or.inr (le_refl _)), hszr]
  · rw [hfl1]
    intro hmem
    rcases List.mem_append.mp hmem with h2 | h2
    · exact hcA h2
    · rcases List.mem_append.mp h2 with h3 | h3
      · exact hcX h3
      · exact hc0 (List.eq_of_mem_replicate h3)
  · rw [hfl1, hlist, hAX, List.append_assoc, List.erase_append_right _ hcA]
    simp [List.replicate_succ']
  · intro x hx
    rw [hmem1]
    exact write32_out _ _ _ _ hx

/-- On a fresh arena of 4096 bytes `myMalloc (4088)` takes the whole chunk and
empties the free list. -/
theorem myMalloc_no_split_example :
    load (heapOf fresh.heap (myMalloc fresh.heap 4088)) (65544 - HeaderSize) = .ok ALLOC ∧
    load (heapOf fresh.heap (myMalloc fresh.heap 4088)) (65544 - HeaderSize + 4) = .ok 4096 ∧
    (65544 - HeaderSize) ∉ (heapOf fresh.heap (myMalloc fresh.heap 4088)).freeList ∧
    (heapOf fresh.heap (myMalloc fresh.heap 4088)).freeList
      = fresh.heap.freeList.erase (65544 - HeaderSize) ++ [0] ∧
    (∀ x, x < 65544 - HeaderSize ∨ 65544 - HeaderSize + 4 ≤ x →
      (heapOf fresh.heap (myMalloc fresh.heap 4088)).mem x = fresh.heap.mem x) :=
  myMalloc_no_split fresh.heap (heapOf fresh.heap (myMalloc fresh.heap 4088)) [(FREE, 4096)]
    4088 65544 4096
    { shaped := by decide, chain := by decide, tiles := by decide, list := ⟨15, by decide⟩,
      count := by decide }
    (by decide) (by decide) (by rfl) (by decide) (by decide) (by decide)

/-! ## Headers along a chunk sequence -/

theorem Chain_append (m : Nat → Nat) (a : Nat) (xs ys : List (Nat × Nat)) :
    Chain m a (xs ++ ys) ↔ Chain m a xs ∧ Chain m (a + span xs) ys := by
  induction xs generalizing a with
  | nil => simp [Chain, span]
  | cons c xs ih =>
    rw [List.cons_append]
    simp only [Chain, span]
    rw [ih, Nat.add_assoc]
    tauto

theorem Chain_congr {m m1 : Nat → Nat} {a : Nat} {cs : List (Nat × Nat)} (hs : Shaped cs)
    (hm : ∀ x, a ≤ x → x < a + span cs → m1 x = m x) (hc : Chain m a cs) : Chain m1 a cs := by
  induction cs generalizing a with
  | nil => trivial
  | cons c cs ih =>
    obtain ⟨⟨-, hsz⟩, hs2⟩ := hs.cons
    obtain ⟨h1, h2, h3⟩ := hc
    simp only [span] at hm
    simp only [HeaderSize] at hsz
    refine ⟨?_, ?_, ih hs2 (fun x hx1 hx2 => hm x (by omega) (by omega)) h3⟩
    · rw [← h1]
      exact read32_congr fun x hx1 hx2 => hm x hx1 (by omega)
    · rw [← h2]
      exact read32_congr fun x hx1 hx2 => hm x (by omega) (by omega)

/-- The header of a chunk of a well-formed state can be read. -/
theorem WellFormed.header {h : Heap} {L R : List (Nat × Nat)} {c : Nat × Nat}
    (hwf : WellFormed h (L ++ c :: R)) :
    load h (h.heapMem + span L) = .ok c.1 ∧ load h (h.heapMem + span L + 4) = .ok c.2 ∧
    HeaderSize ≤ c.2 ∧ span L + c.2 + span R = h.heapSize := by
  have hch := ((Chain_append _ _ _ _).mp hwf.chain).2
  obtain ⟨h1, h2, -⟩ := hch
  have hsz := (hwf.shaped c (by simp)).2
  have hsp : span L + c.2 + span R = h.heapSize := by
    have := hwf.tiles
    rw [span_append] at this
    simp only [span] at this
    omega
  have hb := hwf.in_buffer
  simp only [HeaderSize] at hsz
  refine ⟨?_, ?_, hsz, hsp⟩
  · rw [load_of_read (by omega) (by omega), h1]
  · rw [load_of_read (by omega) (by omega), h2]

/-- A free-list entry of a chain is a header whose chunk ends inside the
chain. -/
theorem freeAddrs_chunk_end {m : Nat → Nat} {a : Nat} {cs : List (Nat × Nat)} (hs : Shaped cs)
    (hc : Chain m a cs) {x : Nat} (hx : x ∈ freeAddrs a cs) :
    x + read32 m (x + 4) ≤ a + span cs := by
  induction cs generalizing a with
  | nil => simp [freeAddrs] at hx
  | cons c cs ih =>
    obtain ⟨-, hs2⟩ := hs.cons
    obtain ⟨-, h2, h3⟩ := hc
    simp only [freeAddrs] at hx
    simp only [span]
    split at hx
    · rcases List.mem_cons.mp hx with h | h
      · subst h
        rw [h2]
        omega
      · have := ih hs2 h3 h
        omega
    · have := ih hs2 h3 hx
      omega

/-! ## The merge block -/

theorem mergeInto_skip {h : Heap} {currP nextP csz : Nat}
    (hl : load h (currP + 4) = .ok csz) (hne : nextP ≠ currP + csz) :
    mergeInto h currP nextP = .ok h := by
  simp [mergeInto, hl, hne]

/-- The merge block on two physically contiguous `FREE` chunks of a
well-formed state makes them one chunk and keeps the state well formed. -/
theorem merge_adjacent {h : Heap} {L R : List (Nat × Nat)} {s0 s1 : Nat}
    (hwf : WellFormed h (L ++ (FREE, s0) :: (FREE, s1) :: R))
    (hcap : h.nFree < h.freeElems) :
    ∃ h1, mergeInto h (h.heapMem + span L) (h.heapMem + span L + s0) = .ok h1 ∧
      WellFormed h1 (L ++ (FREE, s0 + s1) :: R) ∧
      h1.nFree + 1 = h.nFree ∧ h1.freeElems = h.freeElems ∧ h1.heapMem = h.heapMem ∧
      h1.heapSize = h.heapSize := by
  obtain ⟨hst0, hsz0, hge0, hsp0⟩ := hwf.header
  have hwf1 : WellFormed h ((L ++ [(FREE, s0)]) ++ (FREE, s1) :: R) := by
    simpa using hwf
  obtain ⟨hst1, hsz1, hge1, hsp1⟩ := hwf1.header
  simp only [span_append, span, Nat.add_zero] at hst1 hsz1 hsp1
  simp only [] at hst0 hsz0 hge0 hsp0 hge1
  rw [← Nat.add_assoc] at hst1 hsz1
  set a0 := h.heapMem + span L with ha0
  set a1 := a0 + s0 with ha1
  simp only [HeaderSize] at hge0 hge1
  have hbuf := hwf.in_buffer
  have hint := hwf.size_int
  -- the free list
  obtain ⟨k, hlist⟩ := hwf.list
  have hFA : freeAddrs h.heapMem (L ++ (FREE, s0) :: (FREE, s1) :: R)
      = (freeAddrs h.heapMem L ++ [a0]) ++ a1 :: freeAddrs (a1 + s1) R := by
    simp [freeAddrs_append, freeAddrs, ha0, ha1]
  have hpw := freeAddrs_pairwise (a := h.heapMem) hwf.shaped
  rw [hFA] at hpw
  have ha1A : a1 ∉ freeAddrs h.heapMem L ++ [a0] := by
    intro hmem
    have := (List.pairwise_append.mp hpw).2.2 a1 hmem a1 (by simp)
    omega
  have hcount := hwf.count
  rw [hFA] at hcount
  simp only [List.length_append, List.length_cons, List.length_nil] at hcount
  have hlen := hwf.slots
  rw [hlist, hFA] at hlen
  simp only [List.length_append, List.length_cons, List.length_nil,
    List.length_replicate] at hlen
  -- the steps of the block
  have hstore := store_of_bounds (h := h) (a := a0 + 4) ((s0 + s1) % UINT) (by omega) (by omega)
  have hmod : (s0 + s1) % UINT = s0 + s1 := by
    apply Nat.mod_eq_of_lt
    simp only [UINT]
    omega
  rw [hmod] at hstore
  have hdel := deleteList_ok { h with mem := write32 h.mem (a0 + 4) (s0 + s1) }
    (freeAddrs h.heapMem L ++ [a0]) (freeAddrs (a1 + s1) R) a1 k
    (by simp [hlist, hFA]) ha1A
    (by simp only [List.length_append, List.length_cons, List.length_nil]; omega)
    (by simp only [List.length_append, List.length_cons, List.length_nil]; omega)
  have hnmod : (h.nFree + UINT - 1) % UINT = h.nFree - 1 := by
    have := hwf.nFree_uint
    have e : h.nFree + UINT - 1 = (h.nFree - 1) + UINT := by omega
    rw [e, Nat.add_mod_right]
    exact Nat.mod_eq_of_lt (by omega)
  simp only [hnmod] at hdel
  have hread1 : read32 (write32 h.mem (a0 + 4) (s0 + s1)) (a1 + 4) = s1 := by
    rw [read32_write32_other _ _ _ _ (by omega)]
    exact (load_eq hsz1).1.symm
  refine ⟨{ h with mem := memset0 (write32 h.mem (a0 + 4) (s0 + s1)) a1 s1,
                    freeList := (freeAddrs h.heapMem L ++ [a0]) ++
                      (freeAddrs (a1 + s1) R ++ List.replicate (k + 1) 0),
                    nFree := h.nFree - 1 }, ?_, ?_, ?_, rfl, rfl, rfl⟩
  · have hl2 : load { h with mem := write32 h.mem (a0 + 4) (s0 + s1),
                             freeList := (freeAddrs h.heapMem L ++ [a0]) ++
                               (freeAddrs (a1 + s1) R ++ List.replicate (k + 1) 0),
                             nFree := h.nFree - 1 } (a1 + 4) = .ok s1 := by
      have hb : h.heapMem ≤ a1 + 4 ∧ a1 + 4 + 4 ≤ h.heapMem + h.memBytes :=
        ⟨by omega, by omega⟩
      simp only [load, hb, and_self, if_true, hread1]
    have hs1 : s1 ≠ 0 := by omega
    have hzf : h.heapMem ≤ a1 ∧ a1 + s1 ≤ h.heapMem + h.memBytes := ⟨by omega, by omega⟩
    simp only [mergeInto, hsz0, if_true, hsz1, hmod, hstore, hdel, hl2, zeroFill, hs1, if_false,
      hzf, and_self]
  · have hsh : Shaped (L ++ (FREE, s0 + s1) :: R) := by
      intro c hc
      rcases List.mem_append.mp hc with hc | hc
      · exact hwf.shaped c (List.mem_append_left _ hc)
      · rcases List.mem_cons.mp hc with hc | hc
        · subst hc
          exact ⟨Or.inl rfl, by simp only [HeaderSize]; omega⟩
        · exact hwf.shaped c (by simp [hc])
    have hchain := hwf.chain
    rw [Chain_append] at hchain
    obtain ⟨hcL, hc0, hc0s, hc1, hc1s, hcR⟩ := hchain
    simp only [] at hc0 hc0s hc1 hc1s hcR
    rw [← ha0] at hc0 hc0s hc1 hc1s hcR
    rw [← ha1] at hc1 hc1s hcR
    exact
      { base_pos := hwf.base_pos
        in_space := hwf.in_space
        in_buffer := hwf.in_buffer
        size_int := hwf.size_int
        nFree_uint := by
          show h.nFree - 1 < UINT
          have := hwf.nFree_uint
          omega
        slots := by
          rw [← hwf.slots, hlist, hFA]
          simp only [List.length_append, List.length_cons, List.length_nil,
            List.length_replicate]
          omega
        elems_uint := hwf.elems_uint
        shaped := hsh
        chain := by
          show Chain (memset0 (write32 h.mem (a0 + 4) (s0 + s1)) a1 s1) h.heapMem _
          rw [Chain_append]
          refine ⟨?_, ?_, ?_, ?_⟩
          · refine Chain_congr hwf.shaped.append.1 (fun x hx1 hx2 => ?_) hcL
            rw [memset0_out _ _ _ _ (by omega), write32_out _ _ _ _ (by omega)]
          · show read32 _ a0 = FREE
            rw [← hc0]
            refine read32_congr fun x hx1 hx2 => ?_
            rw [memset0_out _ _ _ _ (by omega), write32_out _ _ _ _ (by omega)]
          · show read32 _ (a0 + 4) = s0 + s1
            have : read32 (memset0 (write32 h.mem (a0 + 4) (s0 + s1)) a1 s1) (a0 + 4)
                = read32 (write32 h.mem (a0 + 4) (s0 + s1)) (a0 + 4) :=
              read32_congr fun x hx1 hx2 => memset0_out _ _ _ _ (by omega)
            rw [this, read32_write32_same _ _ _ (by simp only [UINT]; omega)]
          · show Chain _ (a0 + (s0 + s1)) R
            have hsR : Shaped R := fun c hc => hwf.shaped c (by simp [hc])
            have e : a0 + (s0 + s1) = a1 + s1 := by omega
            rw [e]
            refine Chain_congr hsR (fun x hx1 hx2 => ?_) hcR
            rw [memset0_out _ _ _ _ (by omega), write32_out _ _ _ _ (by omega)]
        tiles := by
          have := hwf.tiles
          simp only [span_append, span] at this ⊢
          omega
        list := ⟨k + 1, by
          show _ = freeAddrs h.heapMem _ ++ _
          simp only [freeAddrs_append, freeAddrs, if_true, ← ha0]
          have e : a0 + (s0 + s1) = a1 + s1 := by omega
          rw [e]
          simp⟩
        count := by
          show (freeAddrs h.heapMem _).length ≤ h.nFree - 1
          simp only [freeAddrs_append, freeAddrs, if_true, List.length_append, List.length_cons]
          have e : h.heapMem + span L + (s0 + s1) = a1 + s1 := by omega
          rw [e]
          omega }
  · show h.nFree - 1 + 1 = h.nFree
    omega


/-! ## Freeing a chunk below some free-list entry -/

/-- The first steps of `myFree` on an `ALLOC` chunk that lies below some
free-list entry: the status becomes `FREE` and `insertList` puts the chunk in
its place, after the entries of the chunks before it. -/
theorem free_insert {h : Heap} {pre post : List (Nat × Nat)} {sz : Nat}
    (hwf : WellFormed h (pre ++ (ALLOC, sz) :: post))
    (hlow : freeAddrs (h.heapMem + span pre + sz) post ≠ [])
    (hcap : h.nFree + 2 ≤ h.freeElems) :
    ∃ h1 h3, store h (h.heapMem + span pre) FREE = .ok h1 ∧
      insertList { h1 with nFree := (h1.nFree + 1) % UINT } (h.heapMem + span pre)
        = .ok (h3, (freeAddrs h.heapMem pre).length) ∧
      WellFormed h3 (pre ++ (FREE, sz) :: post) ∧
      h3.nFree = h.nFree + 2 ∧ h3.freeElems = h.freeElems ∧ h3.heapMem = h.heapMem ∧
      h3.heapSize = h.heapSize := by
  obtain ⟨hst, hsz, hge, hsp⟩ := hwf.header
  simp only [HeaderSize] at hge
  simp only [] at hst hsz hge hsp
  set c := h.heapMem + span pre with hc
  have hbuf := hwf.in_buffer
  have hu := hwf.elems_uint
  obtain ⟨k, hlist⟩ := hwf.list
  obtain ⟨y, Y, hY⟩ := List.exists_cons_of_ne_nil hlow
  have hFA : freeAddrs h.heapMem (pre ++ (ALLOC, sz) :: post)
      = freeAddrs h.heapMem pre ++ y :: Y := by
    have hne : ALLOC ≠ FREE := by decide
    simp [freeAddrs_append, freeAddrs, hne, ← hc, hY]
  have hshp := hwf.shaped.append
  have hshpost : Shaped post := fun d hd => hwf.shaped d (by simp [hd])
  have hA : ∀ x ∈ freeAddrs h.heapMem pre, x < c := by
    intro x hx
    have := (freeAddrs_bounds hshp.1 hx).2
    simp only [HeaderSize] at this
    omega
  have hy : c ≤ y := by
    have hmem : y ∈ freeAddrs (c + sz) post := by rw [hY]; simp
    have := (freeAddrs_bounds hshpost hmem).1
    omega
  have hcount := hwf.count
  rw [hFA] at hcount
  simp only [List.length_append, List.length_cons] at hcount
  have hlen := hwf.slots
  rw [hlist, hFA] at hlen
  simp only [List.length_append, List.length_cons, List.length_replicate] at hlen
  have hmod : (h.nFree + 1) % UINT = h.nFree + 1 := Nat.mod_eq_of_lt (by omega)
  have hins := insertList_ok
    { h with mem := write32 h.mem c FREE, nFree := h.nFree + 1 }
    (freeAddrs h.heapMem pre) Y c y k
    (by show h.freeList = _; rw [hlist, hFA]; simp) hA hy
    (by show _ ≤ h.nFree + 1; omega) (by show h.nFree + 1 ≤ _; omega)
    (by show h.nFree + 1 + 1 < UINT; omega)
  refine ⟨{ h with mem := write32 h.mem c FREE },
    { h with mem := write32 h.mem c FREE,
             freeList := freeAddrs h.heapMem pre ++ c :: y :: (Y ++ List.replicate (k - 1) 0),
             nFree := h.nFree + 1 + 1 },
    store_of_bounds FREE (by omega) (by omega), ?_, ?_, rfl, rfl, rfl, rfl⟩
  · simp only [hmod]
    exact hins
  · have hchain := hwf.chain
    rw [Chain_append] at hchain
    obtain ⟨hcL, hc0, hc0s, hcR⟩ := hchain
    simp only [] at hc0 hc0s hcR
    rw [← hc] at hc0 hc0s hcR
    exact
      { base_pos := hwf.base_pos
        in_space := hwf.in_space
        in_buffer := hwf.in_buffer
        size_int := hwf.size_int
        nFree_uint := by
          show h.nFree + 1 + 1 < UINT
          omega
        slots := by
          show (freeAddrs h.heapMem pre ++ c :: y :: (Y ++ List.replicate (k - 1) 0)).length
            = h.freeElems
          simp only [List.length_append, List.length_cons, List.length_replicate]
          omega
        elems_uint := hwf.elems_uint
        shaped := by
          intro d hd
          rcases List.mem_append.mp hd with hd | hd
          · exact hwf.shaped d (List.mem_append_left _ hd)
          · rcases List.mem_cons.mp hd with hd | hd
            · subst hd
              exact ⟨Or.inl rfl, by simp only [HeaderSize]; omega⟩
            · exact hwf.shaped d (by simp [hd])
        chain := by
          show Chain (write32 h.mem c FREE) h.heapMem _
          rw [Chain_append]
          refine ⟨?_, ?_, ?_, ?_⟩
          · refine Chain_congr hshp.1 (fun x hx1 hx2 => ?_) hcL
            rw [write32_out _ _ _ _ (by omega)]
          · show read32 _ c = FREE
            exact read32_write32_same _ _ _ (by decide)
          · show read32 _ (c + 4) = sz
            rw [read32_write32_other _ _ _ _ (by omega)]
            exact hc0s
          · show Chain _ (c + sz) post
            refine Chain_congr hshpost (fun x hx1 hx2 => ?_) hcR
            rw [write32_out _ _ _ _ (by omega)]
        tiles := by
          have := hwf.tiles
          simp only [span_append, span] at this ⊢
          omega
        list := ⟨k - 1, by
          show freeAddrs h.heapMem pre ++ c :: y :: (Y ++ List.replicate (k - 1) 0) = _
          simp [freeAddrs_append, freeAddrs, ← hc, hY]⟩
        count := by
          show (freeAddrs h.heapMem _).length ≤ h.nFree + 1 + 1
          simp only [freeAddrs_append, freeAddrs, if_true, List.length_append, List.length_cons,
            ← hc, hY]
          omega }

/-! ## The coalescing step -/

theorem nil_or_snoc {α : Type} (l : List α) : l = [] ∨ ∃ l1 d, l = l1 ++ [d] := by
  rcases List.eq_nil_or_concat l with h | ⟨l1, d, h⟩
  · exact Or.inl h
  · exact Or.inr ⟨l1, d, by rw [h, List.concat_eq_append]⟩

theorem joinPrev_concat (pre : List (Nat × Nat)) (d : Nat × Nat) (s : Nat)
    (rest : List (Nat × Nat)) :
    joinPrev (pre ++ [d]) s rest =
      if d.1 = FREE then pre ++ (FREE, d.2 + s) :: rest
      else (pre ++ [d]) ++ (FREE, s) :: rest := by
  simp [joinPrev, List.getLast?_append, List.dropLast_concat]

theorem joinPrev_no_free {a : Nat} (pre : List (Nat × Nat)) (s : Nat)
    (rest : List (Nat × Nat)) (hF : freeAddrs a pre = []) :
    joinPrev pre s rest = pre ++ (FREE, s) :: rest := by
  rcases nil_or_snoc pre with h | ⟨pre1, d, h⟩
  · subst h
    simp [joinPrev]
  · subst h
    rw [joinPrev_concat]
    have hd : ¬ d.1 = FREE := by
      intro hd
      rw [freeAddrs_append] at hF
      simp [freeAddrs, hd] at hF
    simp [hd]

/-- The merge block for the next entry, after the insertion. -/
theorem merge_next {h : Heap} {pre post : List (Nat × Nat)} {sz y : Nat} {Y : List Nat}
    (hwf : WellFormed h (pre ++ (FREE, sz) :: post))
    (hY : freeAddrs (h.heapMem + span pre + sz) post = y :: Y)
    (hcap : h.nFree < h.freeElems) :
    ∃ h1, mergeInto h (h.heapMem + span pre) y = .ok h1 ∧
      WellFormed h1 (pre ++ (FREE, (absorbNext sz post).1) :: (absorbNext sz post).2) ∧
      h1.nFree ≤ h.nFree ∧ h1.freeElems = h.freeElems ∧ h1.heapMem = h.heapMem ∧
      h1.heapSize = h.heapSize := by
  cases post with
  | nil => simp [freeAddrs] at hY
  | cons d post1 =>
    obtain ⟨-, hsz, -, -⟩ := hwf.header
    simp only [] at hsz
    by_cases hd : d.1 = FREE
    · have hdeq : d = (FREE, d.2) := by rw [← hd]
      have hy : y = h.heapMem + span pre + sz := by
        simp only [freeAddrs, hd, if_true] at hY
        exact (List.cons.inj hY).1.symm
      rw [hdeq] at hwf
      obtain ⟨h1, hm, hwf1, hn, he, hb, hs⟩ := merge_adjacent hwf hcap
      refine ⟨h1, by rw [hy]; exact hm, ?_, by omega, he, hb, hs⟩
      simpa [absorbNext, hd] using hwf1
    · have hshpost1 : Shaped post1 := fun c hc => hwf.shaped c (by simp [hc])
      have hd2 : HeaderSize ≤ d.2 := (hwf.shaped d (by simp)).2
      have hy : y ≠ h.heapMem + span pre + sz := by
        simp only [freeAddrs, hd, if_false] at hY
        have hmem : y ∈ freeAddrs (h.heapMem + span pre + sz + d.2) post1 := by
          rw [hY]; simp
        have := (freeAddrs_bounds hshpost1 hmem).1
        simp only [HeaderSize] at hd2
        omega
      refine ⟨h, mergeInto_skip hsz hy, ?_, le_refl _, rfl, rfl, rfl⟩
      simpa [absorbNext, hd] using hwf

/-- The merge block for the previous entry. -/
theorem merge_prev {h : Heap} {pre rest : List (Nat × Nat)} {s q : Nat} {Q : List Nat}
    (hwf : WellFormed h (pre ++ (FREE, s) :: rest))
    (hQ : freeAddrs h.heapMem pre = Q ++ [q])
    (hcap : h.nFree < h.freeElems) :
    ∃ h1, mergeInto h q (h.heapMem + span pre) = .ok h1 ∧
      WellFormed h1 (joinPrev pre s rest) ∧ h1.heapMem = h.heapMem ∧
      h1.heapSize = h.heapSize ∧ h1.freeElems = h.freeElems := by
  rcases nil_or_snoc pre with hp | ⟨pre1, d, hp⟩
  · subst hp
    simp [freeAddrs] at hQ
  subst hp
  rw [joinPrev_concat]
  have hd2 : HeaderSize ≤ d.2 := (hwf.shaped d (by simp)).2
  simp only [HeaderSize] at hd2
  by_cases hd : d.1 = FREE
  · have hdeq : d = (FREE, d.2) := by rw [← hd]
    have hq : q = h.heapMem + span pre1 := by
      rw [freeAddrs_append] at hQ
      simp only [freeAddrs, hd, if_true] at hQ
      have e : [h.heapMem + span pre1] = [q] := (List.append_inj' hQ rfl).2
      exact (List.cons.inj e).1.symm
    have hwf2 : WellFormed h (pre1 ++ (FREE, d.2) :: (FREE, s) :: rest) := by
      rw [← hdeq]
      simpa using hwf
    obtain ⟨h1, hm, hwf1, -, he, hb, hs⟩ := merge_adjacent hwf2 hcap
    refine ⟨h1, ?_, by simpa [hd] using hwf1, hb, hs, he⟩
    rw [hq, span_append]
    simp only [span, Nat.add_zero]
    rw [← Nat.add_assoc]
    exact hm
  · have hF : freeAddrs h.heapMem pre1 = Q ++ [q] := by
      rw [freeAddrs_append] at hQ
      simpa [freeAddrs, hd] using hQ
    have hqmem : q ∈ freeAddrs h.heapMem pre1 := by rw [hF]; simp
    have hsh1 : Shaped pre1 := fun c hc => hwf.shaped c (by simp [hc])
    have hch1 : Chain h.mem h.heapMem pre1 := by
      have := hwf.chain
      rw [List.append_assoc, Chain_append] at this
      exact this.1
    have hb := freeAddrs_bounds hsh1 hqmem
    have hend := freeAddrs_chunk_end hsh1 hch1 hqmem
    have htiles := hwf.tiles
    simp only [span_append, span] at htiles
    have hbuf := hwf.in_buffer
    simp only [HeaderSize] at hb
    have hl : load h (q + 4) = .ok (read32 h.mem (q + 4)) :=
      load_of_read (by omega) (by omega)
    have hne : h.heapMem + span (pre1 ++ [d]) ≠ q + read32 h.mem (q + 4) := by
      simp only [span_append, span]
      omega
    exact ⟨h, mergeInto_skip hl hne, by simpa [hd] using hwf, rfl, rfl, rfl⟩

/-- `mergeFreeChunks` at the index of the chunk `insertList` has just put in
its place, below some other entry. -/
theorem mergeFreeChunks_ok {h : Heap} {pre post : List (Nat × Nat)} {sz : Nat}
    (hwf : WellFormed h (pre ++ (FREE, sz) :: post))
    (hlow : freeAddrs (h.heapMem + span pre + sz) post ≠ [])
    (hcap : h.nFree < h.freeElems) :
    ∃ h1, mergeFreeChunks h (freeAddrs h.heapMem pre).length = .ok h1 ∧
      WellFormed h1 (coalesce pre sz post) ∧ h1.heapMem = h.heapMem ∧
      h1.heapSize = h.heapSize ∧ h1.freeElems = h.freeElems := by
  obtain ⟨y, Y, hY⟩ := List.exists_cons_of_ne_nil hlow
  obtain ⟨k, hlist⟩ := hwf.list
  have hFA : freeAddrs h.heapMem (pre ++ (FREE, sz) :: post)
      = freeAddrs h.heapMem pre ++ (h.heapMem + span pre) :: y :: Y := by
    simp [freeAddrs_append, freeAddrs, hY]
  rw [hFA] at hlist
  have hcount := hwf.count
  rw [hFA] at hcount
  simp only [List.length_append, List.length_cons] at hcount
  have hget0 : slotGet h.freeList (freeAddrs h.heapMem pre).length
      = .ok (h.heapMem + span pre) := by
    rw [hlist, List.append_assoc]
    exact slotGet_mid _ _ _
  have hget1 : slotGet h.freeList ((freeAddrs h.heapMem pre).length + 1) = .ok y := by
    have := slotGet_mid (freeAddrs h.heapMem pre ++ [h.heapMem + span pre]) y
      (Y ++ List.replicate k 0)
    simpa [hlist] using this
  obtain ⟨h1, hm1, hwf1, hn1, he1, hb1, hs1⟩ := merge_next hwf hY hcap
  unfold coalesce
  by_cases hidx : (freeAddrs h.heapMem pre).length = 0
  · have hF : freeAddrs h.heapMem pre = [] := List.length_eq_zero.mp hidx
    rw [joinPrev_no_free pre _ _ hF]
    refine ⟨h1, ?_, hwf1, hb1, hs1, he1⟩
    rw [hidx] at hget0 hget1 ⊢
    simp only [mergeFreeChunks, if_true, hget0, hget1]
    exact hm1
  · have hlast : (freeAddrs h.heapMem pre).length ≠ (h.nFree + UINT - 1) % UINT := by
      have := hwf.nFree_uint
      have e : h.nFree + UINT - 1 = (h.nFree - 1) + UINT := by omega
      rw [e, Nat.add_mod_right, Nat.mod_eq_of_lt (by omega)]
      omega
    rcases nil_or_snoc (freeAddrs h.heapMem pre) with hF | ⟨Q, q, hQ⟩
    · rw [hF] at hidx
      exact absurd rfl hidx
    have hgetp : slotGet h.freeList ((freeAddrs h.heapMem pre).length - 1) = .ok q := by
      have := slotGet_mid Q q ((h.heapMem + span pre) :: y :: Y ++ List.replicate k 0)
      rw [hlist, hQ]
      simpa using this
    obtain ⟨h2, hm2, hwf2, hb2, hs2, he2⟩ :=
      merge_prev (Q := Q) (q := q) hwf1 (by rw [hb1]; exact hQ) (by omega)
    refine ⟨h2, ?_, hwf2, by rw [hb2, hb1], by rw [hs2, hs1], by rw [he2, he1]⟩
    rw [hb1] at hm2
    simp only [mergeFreeChunks, hidx, if_false, hlast, hgetp, hget0, hget1, hm1]
    exact hm2

theorem noAdjacentFree_iff (cs : List (Nat × Nat)) :
    NoAdjacentFree cs ↔ List.Chain' (fun (c d : Nat × Nat) => ¬ (c.1 = FREE ∧ d.1 = FREE)) cs := by
  induction cs with
  | nil => simp [NoAdjacentFree]
  | cons c cs ih =>
    cases cs with
    | nil => simp [NoAdjacentFree]
    | cons d cs => rw [NoAdjacentFree, List.chain'_cons, ih]

theorem absorbNext_head (sz : Nat) {post : List (Nat × Nat)}
    (hp : NoAdjacentFree post) :
    NoAdjacentFree ((FREE, (absorbNext sz post).1) :: (absorbNext sz post).2) := by
  rw [noAdjacentFree_iff] at hp ⊢
  cases post with
  | nil => simp [absorbNext]
  | cons d post1 =>
    by_cases hd : d.1 = FREE
    · simp only [absorbNext, hd, if_true]
      cases post1 with
      | nil => simp
      | cons e post2 =>
        rw [List.chain'_cons] at hp ⊢
        refine ⟨?_, hp.2⟩
        intro hh
        exact hp.1 ⟨hd, hh.2⟩
    · simp only [absorbNext, hd, if_false]
      rw [List.chain'_cons]
      exact ⟨fun hh => hd hh.2, hp⟩

/-- Coalescing leaves no two physically contiguous `FREE` chunks. -/
theorem coalesce_noAdjacent {pre post : List (Nat × Nat)} {sz : Nat}
    (hno : NoAdjacentFree (pre ++ (ALLOC, sz) :: post)) :
    NoAdjacentFree (coalesce pre sz post) := by
  have hsplit := hno
  rw [noAdjacentFree_iff, List.chain'_append] at hsplit
  obtain ⟨hpre, hmid, -⟩ := hsplit
  have hpost : NoAdjacentFree post := by
    rw [noAdjacentFree_iff]
    exact (List.chain'_cons'.mp hmid).2
  have htail := absorbNext_head sz hpost
  unfold coalesce
  rcases nil_or_snoc pre with hp | ⟨pre1, d, hp⟩
  · subst hp
    simpa [joinPrev] using htail
  subst hp
  rw [joinPrev_concat]
  rw [noAdjacentFree_iff] at htail ⊢
  rw [List.chain'_append] at hpre
  by_cases hd : d.1 = FREE
  · simp only [hd, if_true]
    rw [List.chain'_append]
    refine ⟨hpre.1, ?_, ?_⟩
    · rw [List.chain'_cons'] at htail ⊢
      exact ⟨fun y hy => by simpa using htail.1 y hy, htail.2⟩
    · intro x hx y hy
      have := hpre.2.2 x hx d (by simp)
      simp only [List.head?_cons, Option.mem_def, Option.some.injEq] at hy
      subst hy
      intro hh
      exact this ⟨hh.1, hd⟩
  · simp only [hd, if_false]
    rw [List.chain'_append]
    refine ⟨List.chain'_append.mpr hpre, htail, ?_⟩
    intro x hx y hy
    have hx2 : x = d := by simpa using hx.symm
    subst hx2
    intro hh
    exact hd hh.1

/-! ## The coalescing step of myFree -/

/-- The coalescing step when the arena lies inside its buffer: in a
well-formed state with chunk sequence `pre ++ (ALLOC, sz) :: post`
in which no two `FREE` chunks are physically contiguous, with
`nFree + 3 <= freeElems` (room for the slots `insertList` and `deleteList`
touch) and with some free-list entry above the chunk `c` at
`heapMem + span pre`, the call `myFree (c + 8)` returns and leaves a
well-formed state over the same arena whose chunk sequence is
`coalesce pre sz post`: `c` is `FREE`, merged with the `FREE` chunk that starts
at its end and with the `FREE` chunk that ends at its start (both when both
are there), the sizes added; again no two `FREE` chunks are contiguous. -/
theorem myFree_coalesces (h : Heap) (pre post : List (Nat × Nat)) (sz : Nat)
    (hwf : WellFormed h (pre ++ (ALLOC, sz) :: post))
    (hno : NoAdjacentFree (pre ++ (ALLOC, sz) :: post))
    (hcap : h.nFree + 3 ≤ h.freeElems)
    (hlow : ∃ q ∈ h.freeList, h.heapMem + span pre < q) :
    ∃ h1, myFree h (h.heapMem + span pre + HeaderSize) = .ok (.returned h1) ∧
      WellFormed h1 (coalesce pre sz post) ∧ NoAdjacentFree (coalesce pre sz post) ∧
      h1.heapMem = h.heapMem ∧ h1.heapSize = h.heapSize ∧ h1.freeElems = h.freeElems := by
  obtain ⟨hst, -, hge, hsp⟩ := hwf.header
  simp only [HeaderSize] at hge
  simp only [] at hst hge hsp
  have hshp := hwf.shaped.append
  -- some `FREE` chunk lies after `c`
  have hpost : freeAddrs (h.heapMem + span pre + sz) post ≠ [] := by
    intro hnil
    obtain ⟨q, hq, hlt⟩ := hlow
    obtain ⟨k, hlist⟩ := hwf.list
    have hne : ALLOC ≠ FREE := by decide
    rw [hlist, freeAddrs_append] at hq
    simp only [freeAddrs, hne, if_false, hnil, List.append_nil] at hq
    rcases List.mem_append.mp hq with hq | hq
    · have := (freeAddrs_bounds hshp.1 hq).2
      simp only [HeaderSize] at this
      omega
    · have := List.eq_of_mem_replicate hq
      omega
  obtain ⟨h1, h3, hstore, hins, hwf3, hn3, he3, hb3, hs3⟩ := free_insert hwf hpost (by omega)
  have hpost3 : freeAddrs (h3.heapMem + span pre + sz) post ≠ [] := by rw [hb3]; exact hpost
  obtain ⟨h5, hmerge, hwf5, hb5, hs5, he5⟩ := mergeFreeChunks_ok hwf3 hpost3 (by omega)
  rw [hb3] at hmerge
  refine ⟨h5, ?_, hwf5, coalesce_noAdjacent hno, by rw [hb5, hb3], by rw [hs5, hs3],
    by rw [he5, he3]⟩
  have hobj : h.heapMem + span pre + HeaderSize ≠ 0 := by simp [HeaderSize]
  have hhdr : (h.heapMem + span pre + HeaderSize + ADDR - HeaderSize) % ADDR
      = h.heapMem + span pre := by
    have hsp2 := hwf.in_space
    have e : h.heapMem + span pre + HeaderSize + ADDR - HeaderSize
        = h.heapMem + span pre + ADDR := by simp only [HeaderSize]; omega
    rw [e, Nat.add_mod_right]
    exact Nat.mod_eq_of_lt (by omega)
  have hn1 : h1.nFree = h.nFree := by rw [(store_eq hstore).1]
  have hnz : ¬ (h1.nFree + 1) % UINT = 0 := by
    have := hwf.elems_uint
    rw [hn1, Nat.mod_eq_of_lt (by omega)]
    omega
  simp only [myFree, hobj, if_false, hhdr, hst, if_true, hstore, hnz, hins, hmerge]

/-- On a run: after `A`, `B`, `C = myMalloc (100)`, `myFree (A)`,
`myFree (C)` the arena is `(FREE, 108)`, `(ALLOC, 108)`, `(FREE, 3880)`, and
`myFree (B)` bridges the two free neighbours into the single chunk
`(FREE, 4096)`. -/
theorem myFree_coalesces_example :
    ∃ h1, myFree (after [.malloc 100, .malloc 100, .malloc 100, .free 0, .free 2]).heap
        ((after [.malloc 100, .malloc 100, .malloc 100, .free 0, .free 2]).heap.heapMem
          + span [(FREE, 108)] + HeaderSize) = .ok (.returned h1) ∧
      WellFormed h1 (coalesce [(FREE, 108)] 108 [(FREE, 3880)]) ∧
      NoAdjacentFree (coalesce [(FREE, 108)] 108 [(FREE, 3880)]) ∧
      h1.heapMem = (after [.malloc 100, .malloc 100, .malloc 100, .free 0, .free 2]).heap.heapMem ∧
      h1.heapSize = (after [.malloc 100, .malloc 100, .malloc 100, .free 0, .free 2]).heap.heapSize ∧
      h1.freeElems
        = (after [.malloc 100, .malloc 100, .malloc 100, .free 0, .free 2]).heap.freeElems :=
  myFree_coalesces (after [.malloc 100, .malloc 100, .malloc 100, .free 0, .free 2]).heap
    [(FREE, 108)] [(FREE, 3880)] 108
    { base_pos := by decide, in_space := by decide, in_buffer := by decide,
      size_int := by decide, nFree_uint := by decide, slots := by decide,
      elems_uint := by decide, shaped := by decide, chain := by decide,
      tiles := by decide, list := ⟨14, by decide⟩, count := by decide }
    (by decide) (by decide) ⟨65752, by decide, by decide⟩

/-- The bridge of the run above: one chunk of 4096 bytes. -/
theorem coalesce_bridge_example : coalesce [(FREE, 108)] 108 [(FREE, 3880)] = [(FREE, 4096)] := by decide

/-- When every slot of the free list (the `NULL` ones included) is below the
header of an `ALLOC` chunk, `myFree` reads the slot just past the free list:
the search loop of `insertList` does not stop at `NULL`. -/
theorem myFree_above_all_slots (h : Heap) (obj : Nat) (hobj : HeaderSize ≤ obj)
    (hsmall : obj < ADDR) (hst : load h (obj - HeaderSize) = .ok ALLOC)
    (hn : h.nFree + 1 < UINT) (hall : ∀ x ∈ h.freeList, x < obj - HeaderSize) :
    myFree h obj = .error (.slot ((h.freeList.length : Nat) : Int)) := by
  have hobj0 : obj ≠ 0 := by simp only [HeaderSize] at hobj; omega
  have hhdr : (obj + ADDR - HeaderSize) % ADDR = obj - HeaderSize := by
    have e : obj + ADDR - HeaderSize = (obj - HeaderSize) + ADDR := by
      simp only [HeaderSize] at hobj ⊢; omega
    rw [e, Nat.add_mod_right]
    exact Nat.mod_eq_of_lt (by omega)
  obtain ⟨-, hb1, hb2⟩ := load_eq hst
  have hnz : ¬ (h.nFree + 1) % UINT = 0 := by
    rw [Nat.mod_eq_of_lt hn]
    omega
  have hpos := insertPos_all_below (obj - HeaderSize) h.freeList 0 hall
  rw [Nat.zero_add] at hpos
  simp only [myFree, hobj0, if_false, hhdr, hst, if_true, store_of_bounds FREE hb1 hb2, hnz,
    insertList, hpos]

/-! ## Runs that show the defects of the free list and of the arena buffer -/

/-- Every session reached from `freshOf size` is a reachable state when
`initHeap (size)` returned 0. -/
theorem reachable_of_run_from (size : Int) (calls : List Call) (s : Session)
    (h0 : startSession size 65536 = some (freshOf size))
    (h : (freshOf size).run calls = some s) : Reachable s :=
  ⟨size, 65536, calls, freshOf size, h0, h⟩

/-- C11 (code defect): on a fresh arena of 4096 bytes the free list has
`freeElems = 16` slots.  After `p = myMalloc (4088)` the call `myFree (p)` reads
the slot of index 16.  And after `driftRun` (sixteen calls `myMalloc (100)`,
then `myFree` of the chunks 0, 2, ..., 12) the free list has 8 entries in use and `nFree` is 15;
`myFree` of chunk 14 (at 67048, payload 67056) then touches the slot of index
16 in the shifting loop of `insertList`. -/
theorem C11_slot_past_capacity :
    (∃ s : Session, fresh.run [.malloc 4088] = some s ∧ Reachable s ∧
      s.heap.freeElems = 16 ∧ s.heap.freeList.length = 16 ∧
      s.handles = [⟨65544, 4088, true⟩] ∧
      myFree s.heap 65544 = .error (.slot 16)) ∧
    (∃ s : Session,
      fresh.run driftRun = some s ∧
      Reachable s ∧
      s.heap.freeElems = 16 ∧ s.heap.freeList.length = 16 ∧
      nonNull s.heap = [65536, 65752, 65968, 66184, 66400, 66616, 66832, 67264] ∧
      s.heap.nFree = 15 ∧
      s.handles[14]? = some ⟨67056, 100, true⟩ ∧
      myFree s.heap 67056 = .error (.slot 16)) := by
  refine ⟨⟨after [.malloc 4088], rfl, reachable_of_run [.malloc 4088] _ (by rfl), ?_, ?_, ?_,
    rfl⟩, ⟨after driftRun, rfl, reachable_of_run driftRun _ (by rfl),
    ?_, ?_, ?_, ?_, ?_, rfl⟩⟩ <;> decide

/-- C14 (code defect): `initHeap (4100)` records `heapSize = 4100` for a buffer
of 4096 bytes.  After `p = myMalloc (100)` the arena is `(ALLOC, 108)`,
`(FREE, 3992)`, and `myFree (p)` merges the two chunks and then runs
`memset (65644, 0, 3992)`, which ends 4 bytes past the buffer.  (On the arena
of `initHeap (4096)` the same two calls end with the single entry 65536 and the
header `(FREE, 4096)`.) -/
theorem C14_round_trip_leaves_buffer :
    (∃ s : Session, (freshOf 4100).run [.malloc 100] = some s ∧ Reachable s ∧
      s.heap.heapSize = 4100 ∧ s.heap.memBytes = 4096 ∧
      s.handles = [⟨65544, 100, true⟩] ∧
      load s.heap 65644 = .ok FREE ∧ load s.heap 65648 = .ok 3992 ∧
      65536 + 4096 < 65644 + 3992 ∧
      myFree s.heap 65544 = .error (.arena 65644)) ∧
    (∃ s : Session, (freshOf 4096).run [.malloc 100, .free 0] = some s ∧
      nonNull s.heap = [65536] ∧
      load s.heap 65536 = .ok FREE ∧ load s.heap 65540 = .ok 4096) := by
  refine ⟨⟨((freshOf 4100).run [.malloc 100]).getD fresh, rfl,
    reachable_of_run_from 4100 [.malloc 100] _ rfl (by rfl), ?_, ?_, ?_, ?_, ?_, ?_, rfl⟩,
    ⟨((freshOf 4096).run [.malloc 100, .free 0]).getD fresh, rfl, ?_, ?_, ?_⟩⟩ <;>
    decide

/-- C15 (code defect): on the arena of `initHeap (4100)` (buffer of 4096 bytes),
after `A = myMalloc (100)`, `B = myMalloc (100)`, `myFree (A)` the arena is
`(FREE, 108)`, `(ALLOC, 108)`, `(FREE, 3884)`; `myFree (B)` merges `B` with the
last chunk and then runs `memset (65752, 0, 3884)`, which ends 4 bytes past the
buffer.  (On the arena of `initHeap (4096)` the four calls end with the single
entry 65536 and the header `(FREE, 4096)`.) -/
theorem C15_second_free_leaves_buffer :
    (∃ s : Session,
      (freshOf 4100).run [.malloc 100, .malloc 100, .free 0] = some s ∧ Reachable s ∧
      s.heap.heapSize = 4100 ∧ s.heap.memBytes = 4096 ∧
      s.handles = [⟨65544, 100, false⟩, ⟨65652, 100, true⟩] ∧
      dumpHeap s.heap
        = .finished [(65536, FREE, 108), (65644, ALLOC, 108), (65752, FREE, 3884)] 69636 ∧
      65536 + 4096 < 65752 + 3884 ∧
      myFree s.heap 65652 = .error (.arena 65752)) ∧
    (∃ s : Session,
      (freshOf 4096).run [.malloc 100, .malloc 100, .free 0, .free 1] = some s ∧
      nonNull s.heap = [65536] ∧
      load s.heap 65536 = .ok FREE ∧ load s.heap 65540 = .ok 4096) := by
  refine ⟨⟨((freshOf 4100).run [.malloc 100, .malloc 100, .free 0]).getD fresh, rfl,
    reachable_of_run_from 4100 [.malloc 100, .malloc 100, .free 0] _ rfl (by rfl),
    ?_, ?_, ?_, ?_, ?_, rfl⟩,
    ⟨((freshOf 4096).run [.malloc 100, .malloc 100, .free 0, .free 1]).getD fresh, rfl,
      ?_, ?_, ?_⟩⟩ <;> decide

/-- C18 (code defect): after `p = myMalloc (100)`, `myFree (p)` on a fresh arena
of 4096 bytes the free list has one entry in use, the arena base, and `nFree`
is 2: `myFree` and `insertList` both increment it. -/
theorem C18_nFree_counts_twice :
    ∃ s : Session, fresh.run [.malloc 100, .free 0] = some s ∧ Reachable s ∧
      nonNull s.heap = [65536] ∧ s.heap.nFree = 2 ∧ ¬ CountsEntries s.heap := by
  refine ⟨after [.malloc 100, .free 0], rfl, reachable_of_run [.malloc 100, .free 0] _ (by rfl),
    by decide, by decide, ?_⟩
  unfold CountsEntries
  decide

/-! ## The no-split path and the coalescing step on reachable states -/

/-- A well-formed state has the layout of its chunk sequence. -/
theorem WellFormed.layout {h : Heap} {cs : List (Nat × Nat)} (hwf : WellFormed h cs) :
    Layout h cs :=
  { shaped := hwf.shaped, chain := hwf.chain, tiles := hwf.tiles, list := hwf.list,
    count := hwf.count }

/-- C7 (code defect): after `fullCountRun` (sixteen calls `myMalloc (100)`, then
`myFree` of the chunks 0, 2, 4, 6, 8, 10, 11, 13) on a fresh arena of 4096
bytes the state meets the three conditions of the claim: the chunks
`fullCountChunks` tile the arena, the free list is the eight `FREE` chunks in
ascending order followed by eight `NULL` slots, and `nFree = 16` is at least
the number of entries.  `nFree` is also the number of slots, `freeElems = 16`.
The entry 65536 has size 108, which is `totalSize` for `myMalloc (100)`, so the
chunk is taken without a split; `deleteList` then shifts the slots while
`i < nFree` and reads the slot of index 16, one past the free list.  (After
`driftRun`, where `nFree` is 15, the same call returns 65544 and the free list
is the old one with 65536 taken out.) -/
theorem C7_no_split_reads_past_list :
    (∃ s : Session, fresh.run fullCountRun = some s ∧ Reachable s ∧
      Layout s.heap fullCountChunks ∧
      s.heap.freeList
        = [65536, 65752, 65968, 66184, 66400, 66616, 66940, 67264, 0, 0, 0, 0, 0, 0, 0, 0] ∧
      s.heap.nFree = 16 ∧ s.heap.freeElems = 16 ∧
      Fits s.heap (totalSizeOf 100) 65536 108 ∧
      108 - totalSizeOf 100 < MIN_CHUNK + HeaderSize ∧
      myMalloc s.heap 100 = .error (.slot 16)) ∧
    (∃ s : Session, fresh.run driftRun = some s ∧ s.heap.nFree = 15 ∧
      ∃ h1, myMalloc s.heap 100 = .ok (h1, 65544) ∧
        h1.freeList = s.heap.freeList.erase 65536 ++ [0]) := by
  refine ⟨⟨after fullCountRun, rfl, reachable_of_run fullCountRun _ (by rfl),
    { shaped := by decide, chain := by decide, tiles := by decide, list := ⟨8, by decide⟩,
      count := by decide }, by decide, by decide, by decide, ?_, by decide, by rfl⟩,
    ⟨after driftRun, rfl, by decide, heapOf (after driftRun).heap (myMalloc (after driftRun).heap 100),
      rfl, by decide⟩⟩
  unfold Fits
  decide

/-- C8 (code defect): `initHeap (4100)` records `heapSize = 4100` for a buffer
of 4096 bytes.  After `myMalloc (100)` the state meets the conditions of the
claim: the chunks `(ALLOC, 108)`, `(FREE, 3992)` tile the arena, the free list
is the one `FREE` chunk 65644 followed by `NULL` slots, no two `FREE` chunks are
contiguous, `nFree = 1` and the free list has 16 slots, and the `ALLOC` chunk
`c = 65536` is lower than the entry 65644.  `myFree (c + 8)` merges `c` with
the chunk at its end and then runs `memset (65644, 0, 3992)`, which ends 4
bytes past the buffer.  (On the arena of `initHeap (4096)` the same two calls
leave the single chunk `(FREE, 4096)`.) -/
theorem C8_coalescing_leaves_buffer :
    (∃ s : Session, (freshOf 4100).run [.malloc 100] = some s ∧ Reachable s ∧
      Layout s.heap [(ALLOC, 108), (FREE, 3992)] ∧
      NoAdjacentFree [(ALLOC, 108), (FREE, 3992)] ∧
      s.heap.nFree = 1 ∧ s.heap.freeElems = 16 ∧ s.heap.freeList.length = 16 ∧
      load s.heap 65536 = .ok ALLOC ∧
      (∃ q ∈ s.heap.freeList, 65536 < q) ∧
      s.heap.heapMem = 65536 ∧ s.heap.heapSize = 4100 ∧ s.heap.memBytes = 4096 ∧
      myFree s.heap (65536 + HeaderSize) = .error (.arena 65644)) ∧
    (∃ s : Session, (freshOf 4096).run [.malloc 100, .free 0] = some s ∧
      Layout s.heap (coalesce [] 108 [(FREE, 3988)]) ∧
      coalesce [] 108 [(FREE, 3988)] = [(FREE, 4096)]) := by
  refine ⟨⟨((freshOf 4100).run [.malloc 100]).getD fresh, rfl,
    reachable_of_run_from 4100 [.malloc 100] _ rfl (by rfl),
    { shaped := by decide, chain := by decide, tiles := by decide, list := ⟨15, by decide⟩,
      count := by decide }, by decide, by decide, by decide, by decide, by decide,
    ⟨65644, by decide, by decide⟩, by decide, by decide, by decide, rfl⟩,
    ⟨((freshOf 4096).run [.malloc 100, .free 0]).getD fresh, rfl,
    { shaped := by decide, chain := by decide, tiles := by decide, list := ⟨15, by decide⟩,
      count := by decide }, by decide⟩⟩

/-! ## The fatal path of `myFree`, `heapOffset` and `initHeap` -/

theorem roundUp4_eq_ceil4 (n : Nat) : roundUp4 n = ceil4 n := by
  unfold roundUp4 ceil4
  split <;> omega

/-- C12: `myFree (obj)` ends in `exit (1)` if and only if `obj` is `NULL` or the
status word read at `obj - 8` is not `ALLOC`; the state at the exit is the
state before the call (arena bytes, free list and `nFree` unchanged); and when
`obj` is not `NULL` and the status is `ALLOC`, the status word is written to
`FREE` and the insertion (`freeInsert`) starts from the state with that
status. -/
theorem C12_fatal_free (h : Heap) (obj : Nat) :
    ((∃ h1, myFree h obj = .ok (.exited h1)) ↔
      (obj = 0 ∨ ∃ st, load h (headerOf obj) = .ok st ∧ st ≠ ALLOC)) ∧
    (∀ h1, myFree h obj = .ok (.exited h1) → h1 = h) ∧
    (obj ≠ 0 ∧ load h (headerOf obj) = .ok ALLOC →
      ∃ h1, store h (headerOf obj) FREE = .ok h1 ∧ load h1 (headerOf obj) = .ok FREE ∧
        myFree h obj = freeInsert h1 (headerOf obj)) := by
  have hcont : obj ≠ 0 → load h (headerOf obj) = .ok ALLOC →
      ∃ h1, store h (headerOf obj) FREE = .ok h1 ∧ load h1 (headerOf obj) = .ok FREE ∧
        myFree h obj = freeInsert h1 (headerOf obj) := by
    intro hobj hl
    obtain ⟨-, hb1, hb2⟩ := load_eq hl
    refine ⟨_, store_of_bounds FREE hb1 hb2, ?_, ?_⟩
    · have hb : h.heapMem ≤ headerOf obj ∧ headerOf obj + 4 ≤ h.heapMem + h.memBytes :=
        ⟨hb1, hb2⟩
      simp only [load, hb, and_self, if_true, read32_write32_same _ _ _ (show FREE < UINT by decide)]
    · unfold headerOf at hl hb1 hb2 ⊢
      simp only [myFree, hobj, if_false, hl, if_true, store_of_bounds FREE hb1 hb2, freeInsert]
  have hnoexit : ∀ (h1 : Heap) (p : Nat) (g : Heap), freeInsert h1 p ≠ .ok (.exited g) := by
    intro h1 p g
    unfold freeInsert
    simp only []
    split
    · split <;> simp
    · split
      · simp
      · split <;> simp
  have hexit : ∀ h1, myFree h obj = .ok (.exited h1) →
      h1 = h ∧ (obj = 0 ∨ ∃ st, load h (headerOf obj) = .ok st ∧ st ≠ ALLOC) := by
    intro h1 hres
    by_cases hobj : obj = 0
    · simp only [myFree, hobj, if_true] at hres
      have := Except.ok.inj hres
      exact ⟨(FreeOutcome.exited.inj this).symm, Or.inl hobj⟩
    · cases hl : load h (headerOf obj) with
      | error e =>
        unfold headerOf at hl
        simp [myFree, hobj, hl] at hres
      | ok st =>
        by_cases hst : st = ALLOC
        · subst hst
          obtain ⟨g, -, -, hg⟩ := hcont hobj hl
          rw [hg] at hres
          exact absurd hres (hnoexit _ _ _)
        · unfold headerOf at hl
          simp only [myFree, hobj, if_false, hl, hst] at hres
          have := Except.ok.inj hres
          exact ⟨(FreeOutcome.exited.inj this).symm, Or.inr ⟨st, rfl, hst⟩⟩
  refine ⟨⟨fun ⟨h1, hres⟩ => (hexit h1 hres).2, ?_⟩, fun h1 hres => (hexit h1 hres).1,
    fun hh => hcont hh.1 hh.2⟩
  rintro (hobj | ⟨st, hl, hst⟩)
  · exact ⟨h, by simp [myFree, hobj]⟩
  · by_cases hobj : obj = 0
    · exact ⟨h, by simp [myFree, hobj]⟩
    · unfold headerOf at hl
      exact ⟨h, by simp only [myFree, hobj, if_false, hl, hst]⟩

/-- C19: in a state whose `heapSize` is in the range of `int`, `heapOffset (obj)`
is -1 when `obj` is `NULL` or outside `[heapMem, heapMem + heapSize)`, and
otherwise it is `obj - heapMem`, a value from 0 to `heapSize - 1`.  (The
function reads the state and returns a number; it has no state to return.) -/
theorem C19_heapOffset (h : Heap) (obj : Nat) (hsz : h.heapSize ≤ 2147483648) :
    (obj = 0 ∨ obj < h.heapMem ∨ h.heapMem + h.heapSize ≤ obj → heapOffset h obj = -1) ∧
    (obj ≠ 0 ∧ h.heapMem ≤ obj ∧ obj < h.heapMem + h.heapSize →
      heapOffset h obj = ((obj - h.heapMem : Nat) : Int) ∧
      0 ≤ heapOffset h obj ∧ heapOffset h obj < (h.heapSize : Int)) := by
  constructor
  · intro hout
    have hc : obj = 0 ∨ ¬ (h.heapMem ≤ obj ∧ obj < heapMaxAddr h) := by
      unfold heapMaxAddr
      omega
    simp only [heapOffset, hc, if_true]
  · rintro ⟨h0, h1, h2⟩
    have hc : ¬ (obj = 0 ∨ ¬ (h.heapMem ≤ obj ∧ obj < heapMaxAddr h)) := by
      unfold heapMaxAddr
      omega
    have hd : (obj - h.heapMem) % UINT = obj - h.heapMem :=
      Nat.mod_eq_of_lt (by simp only [UINT]; omega)
    have hlt : obj - h.heapMem < 2147483648 := by omega
    simp only [heapOffset, hc, if_false, hd, hlt, if_true]
    refine ⟨trivial, Int.natCast_nonneg _, ?_⟩
    have : obj - h.heapMem < h.heapSize := by omega
    exact Int.ofNat_lt.mpr this

/-- C19, on the fresh arena of 4096 bytes at 65536: the pointer 65544 is inside
the arena and has offset `65544 - 65536`. -/
theorem C19_heapOffset_witness :
    ((65544 : Nat) = 0 ∨ 65544 < fresh.heap.heapMem ∨
        fresh.heap.heapMem + fresh.heap.heapSize ≤ 65544 → heapOffset fresh.heap 65544 = -1) ∧
    ((65544 : Nat) ≠ 0 ∧ fresh.heap.heapMem ≤ 65544 ∧
        65544 < fresh.heap.heapMem + fresh.heap.heapSize →
      heapOffset fresh.heap 65544 = ((65544 - fresh.heap.heapMem : Nat) : Int) ∧
      0 ≤ heapOffset fresh.heap 65544 ∧
      heapOffset fresh.heap 65544 < (fresh.heap.heapSize : Int)) :=
  C19_heapOffset fresh.heap 65544 (by decide)

/-! ## The state `initHeap` leaves -/

/-- The state after a successful `initHeap`, field by field; `H` is the
recorded `heapSize`. -/
theorem initHeap_ok (size : Int) (arena : Nat) (hsize : size ≤ 2147483644)
    (harena : arena ≠ 0) :
    4096 ≤ ceil4 (max size 4096).toNat ∧ ceil4 (max size 4096).toNat < 2147483648 ∧
    initHeap size arena true =
      (0, { heapMem := arena
            heapSize := ceil4 (max size 4096).toNat
            freeList := arena :: List.replicate (ceil4 (max size 4096).toNat / 256 - 1) 0
            freeElems := ceil4 (max size 4096).toNat / 256
            nFree := 1
            mem := write32 (write32 (fun _ => 0) arena FREE) (arena + 4)
              (ceil4 (max size 4096).toNat)
            memBytes := ceil4 (max size 4096).toNat / 8 * 8 }) := by
  have hmax : (if size < (MIN_HEAP : Int) then (MIN_HEAP : Int) else size) = max size 4096 := by
    simp only [MIN_HEAP]
    split <;> omega
  have h1 : 4096 ≤ (max size 4096).toNat := by omega
  have h2 : (max size 4096).toNat ≤ 2147483644 := by omega
  have hge : 4096 ≤ ceil4 (max size 4096).toNat := by unfold ceil4; omega
  have hlt : ceil4 (max size 4096).toNat < 2147483648 := by unfold ceil4; omega
  refine ⟨hge, hlt, ?_⟩
  have hm1 : ceil4 (max size 4096).toNat % UINT = ceil4 (max size 4096).toNat :=
    Nat.mod_eq_of_lt (by simp only [UINT]; omega)
  have hm2 : ceil4 (max size 4096).toNat / 8 % UINT = ceil4 (max size 4096).toNat / 8 :=
    Nat.mod_eq_of_lt (by simp only [UINT]; omega)
  have hm3 : ceil4 (max size 4096).toNat / (MIN_CHUNK * 8) % UINT
      = ceil4 (max size 4096).toNat / 256 := by
    simp only [UINT, MIN_CHUNK]
    omega
  have hrep : (List.replicate (ceil4 (max size 4096).toNat / 256) 0).set 0 arena
      = arena :: List.replicate (ceil4 (max size 4096).toNat / 256 - 1) 0 := by
    obtain ⟨k, hk⟩ : ∃ k, ceil4 (max size 4096).toNat / 256 = k + 1 :=
      ⟨ceil4 (max size 4096).toNat / 256 - 1, by omega⟩
    rw [hk, List.replicate_succ]
    simp
  simp only [initHeap, hmax, roundUp4_eq_ceil4, harena, if_false, hm1, hm2, hm3, hrep,
    PtrSize, Bool.true_eq_false]

/-- C17: for every requested size whose rounding stays in the range of `int`
(`size <= 2147483644`), when both buffers are obtained `initHeap (size)` returns
0 and leaves `heapSize` equal to `max (size, 4096)` rounded up to a multiple of
4, the header `(FREE, heapSize)` at the arena base, every other byte zero, the
arena base in slot 0 of the free list, `NULL` in every other slot, and
`nFree = 1`. -/
theorem C17_initHeap_post (size : Int) (arena : Nat) (hsize : size ≤ 2147483644)
    (harena : arena ≠ 0) :
    (initHeap size arena true).1 = 0 ∧
    (initHeap size arena true).2.heapMem = arena ∧
    (initHeap size arena true).2.heapSize = ceil4 (max size 4096).toNat ∧
    load (initHeap size arena true).2 arena = .ok FREE ∧
    load (initHeap size arena true).2 (arena + 4)
      = .ok (initHeap size arena true).2.heapSize ∧
    (∀ x, x < arena ∨ arena + HeaderSize ≤ x → (initHeap size arena true).2.mem x = 0) ∧
    (initHeap size arena true).2.freeList
      = arena :: List.replicate ((initHeap size arena true).2.freeElems - 1) 0 ∧
    (initHeap size arena true).2.nFree = 1 := by
  obtain ⟨hge, hlt, heq⟩ := initHeap_ok size arena hsize harena
  rw [heq]
  refine ⟨rfl, rfl, rfl, ?_, ?_, ?_, rfl, rfl⟩
  · have hb : arena ≤ arena ∧ arena + 4 ≤ arena + ceil4 (max size 4096).toNat / 8 * 8 :=
      ⟨le_refl _, by omega⟩
    simp only [load, hb, and_self, if_true]
    rw [read32_write32_other _ _ _ _ (Or.inl (le_refl _)),
      read32_write32_same _ _ _ (by decide)]
  · have hb : arena ≤ arena + 4 ∧
        arena + 4 + 4 ≤ arena + ceil4 (max size 4096).toNat / 8 * 8 := ⟨by omega, by omega⟩
    simp only [load, hb, and_self, if_true]
    rw [read32_write32_same _ _ _ (by simp only [UINT]; omega)]
  · intro x hx
    simp only [HeaderSize] at hx
    show write32 (write32 (fun _ => 0) arena FREE) (arena + 4) _ x = 0
    rw [write32_out _ _ _ _ (by omega), write32_out _ _ _ _ (by omega)]

/-- C17, for the request of 5000 bytes with the arena at 65536. -/
theorem C17_initHeap_post_witness :
    (initHeap 5000 65536 true).1 = 0 ∧
    (initHeap 5000 65536 true).2.heapMem = 65536 ∧
    (initHeap 5000 65536 true).2.heapSize = ceil4 (max (5000 : Int) 4096).toNat ∧
    load (initHeap 5000 65536 true).2 65536 = .ok FREE ∧
    load (initHeap 5000 65536 true).2 (65536 + 4)
      = .ok (initHeap 5000 65536 true).2.heapSize ∧
    (∀ x, x < 65536 ∨ 65536 + HeaderSize ≤ x → (initHeap 5000 65536 true).2.mem x = 0) ∧
    (initHeap 5000 65536 true).2.freeList
      = 65536 :: List.replicate ((initHeap 5000 65536 true).2.freeElems - 1) 0 ∧
    (initHeap 5000 65536 true).2.nFree = 1 :=
  C17_initHeap_post 5000 65536 (by decide) (by decide)

/-! ## The walk of `dumpHeap` over a chain of chunks -/

theorem headerOf_payload (c : Nat) (hc : c + HeaderSize ≤ ADDR) :
    headerOf (c + HeaderSize) = c := by
  unfold headerOf
  have e : c + HeaderSize + ADDR - HeaderSize = c + ADDR := by omega
  rw [e, Nat.add_mod_right]
  exact Nat.mod_eq_of_lt (by simp only [HeaderSize] at hc ⊢; omega)

/-- `myFree` of a chunk whose status is `ALLOC`: the status is written and the
insertion follows. -/
theorem myFree_alloc (h : Heap) (obj : Nat) (hobj : obj ≠ 0)
    (hl : load h (headerOf obj) = .ok ALLOC) :
    myFree h obj = freeInsert { h with mem := write32 h.mem (headerOf obj) FREE }
      (headerOf obj) := by
  obtain ⟨-, hb1, hb2⟩ := load_eq hl
  unfold headerOf at hl hb1 hb2 ⊢
  simp only [myFree, hobj, if_false, hl, if_true, store_of_bounds FREE hb1 hb2, freeInsert]

/-- `myFree` of a chunk whose status is not `ALLOC` ends in `exit (1)`. -/
theorem myFree_not_alloc (h : Heap) (obj st : Nat) (hobj : obj ≠ 0)
    (hl : load h (headerOf obj) = .ok st) (hst : st ≠ ALLOC) :
    myFree h obj = .ok (.exited h) := by
  unfold headerOf at hl
  simp only [myFree, hobj, if_false, hl, hst]

theorem deleteList_frame {h h1 : Heap} {p : Nat} (hd : deleteList h p = .ok h1) :
    h1.mem = h.mem ∧ h1.heapMem = h.heapMem ∧ h1.memBytes = h.memBytes := by
  unfold deleteList at hd
  split at hd
  · simp at hd
  · split at hd
    · simp at hd
    · have := Except.ok.inj hd
      subst this
      exact ⟨rfl, rfl, rfl⟩

/-- The merge block leaves a byte outside the size field of `currP` as it was
or sets it to zero. -/
theorem mergeInto_frame {h h1 : Heap} {currP nextP : Nat}
    (hm : mergeInto h currP nextP = .ok h1) :
    h1.heapMem = h.heapMem ∧ h1.memBytes = h.memBytes ∧
    ∀ x, x < currP + 4 ∨ currP + 8 ≤ x → h1.mem x = h.mem x ∨ h1.mem x = 0 := by
  unfold mergeInto at hm
  split at hm
  · simp at hm
  · split at hm
    swap
    · have := Except.ok.inj hm
      subst this
      exact ⟨rfl, rfl, fun x _ => Or.inl rfl⟩
    split at hm
    · simp at hm
    split at hm
    · simp at hm
    rename_i hA hst
    obtain ⟨hAeq, -, -⟩ := store_eq hst
    split at hm
    · simp at hm
    rename_i hB hdel
    obtain ⟨hBm, hBb, hBs⟩ := deleteList_frame hdel
    split at hm
    · simp at hm
    rename_i n hn
    have hBmem : ∀ x, x < currP + 4 ∨ currP + 8 ≤ x → hB.mem x = h.mem x := by
      intro x hx
      rw [hBm, hAeq]
      exact write32_out _ _ _ _ (by omega)
    have hAb : hA.heapMem = h.heapMem ∧ hA.memBytes = h.memBytes := by
      rw [hAeq]; exact ⟨rfl, rfl⟩
    unfold zeroFill at hm
    split at hm
    · have := Except.ok.inj hm
      subst this
      exact ⟨by rw [hBb, hAb.1], by rw [hBs, hAb.2], fun x hx => Or.inl (hBmem x hx)⟩
    · split at hm
      · have := Except.ok.inj hm
        subst this
        refine ⟨by show hB.heapMem = _; rw [hBb, hAb.1],
          by show hB.memBytes = _; rw [hBs, hAb.2], fun x hx => ?_⟩
        show memset0 hB.mem _ _ x = h.mem x ∨ memset0 hB.mem _ _ x = 0
        unfold memset0
        split
        · exact Or.inr rfl
        · exact Or.inl (hBmem x hx)
      · simp at hm

theorem slotGet_some {fl : List Nat} {j q : Nat} (hg : slotGet fl j = .ok q) :
    fl[j]? = some q := by
  unfold slotGet at hg
  split at hg
  · rename_i p hp
    rw [hp, Except.ok.inj hg]
  · simp at hg

/-- `mergeFreeChunks` leaves the byte at `c` as it was or sets it to zero, when
the slots up to `index` hold `c` itself or chunks that end at or before `c`. -/
theorem mergeFreeChunks_frame {h h1 : Heap} {index c : Nat}
    (hm : mergeFreeChunks h index = .ok h1)
    (hsl : ∀ j q, j ≤ index → h.freeList[j]? = some q → q + 8 ≤ c ∨ c ≤ q) :
    h1.heapMem = h.heapMem ∧ h1.memBytes = h.memBytes ∧
    (h1.mem c = h.mem c ∨ h1.mem c = 0) := by
  have hstep : ∀ (g g1 : Heap) (currP nextP : Nat), mergeInto g currP nextP = .ok g1 →
      (currP + 8 ≤ c ∨ c ≤ currP) →
      g1.heapMem = g.heapMem ∧ g1.memBytes = g.memBytes ∧ (g1.mem c = g.mem c ∨ g1.mem c = 0) := by
    intro g g1 currP nextP hg hP
    obtain ⟨e1, e2, e3⟩ := mergeInto_frame hg
    exact ⟨e1, e2, e3 c (by omega)⟩
  unfold mergeFreeChunks at hm
  split at hm
  · rename_i h0
    split at hm
    · simp at hm
    rename_i currP hcur
    split at hm
    · simp at hm
    exact hstep _ _ _ _ hm (hsl index currP (le_refl _) (slotGet_some hcur))
  · split at hm
    · split at hm
      · simp at hm
      split at hm
      · simp at hm
      rename_i currP hcur
      split at hm
      · simp at hm
      exact hstep _ _ _ _ hm (hsl (index - 2) currP (by omega) (slotGet_some hcur))
    · split at hm
      · simp at hm
      rename_i prevP hprev
      split at hm
      · simp at hm
      rename_i currP hcur
      split at hm
      · simp at hm
      split at hm
      · simp at hm
      rename_i g hg
      obtain ⟨a1, a2, a3⟩ := hstep _ _ _ _ hg (hsl index currP (le_refl _) (slotGet_some hcur))
      obtain ⟨b1, b2, b3⟩ := hstep _ _ _ _ hm
        (hsl (index - 1) prevP (by omega) (slotGet_some hprev))
      refine ⟨by rw [b1, a1], by rw [b2, a2], ?_⟩
      rcases b3 with b3 | b3
      · rw [b3]; exact a3
      · exact Or.inr b3

theorem shiftUp_keeps : ∀ (cnt : Nat) (A T : List Nat) (prev : Nat) (fl : List Nat),
    shiftUp cnt (A ++ T) A.length prev = .ok fl → ∃ T1, fl = A ++ T1 := by
  intro cnt
  induction cnt with
  | zero =>
    intro A T prev fl hs
    exact ⟨T, (Except.ok.inj hs).symm⟩
  | succ cnt ih =>
    intro A T prev fl hs
    cases T with
    | nil =>
      have hnone : (A ++ ([] : List Nat))[A.length]? = none := by simp
      simp [shiftUp, slotGet, hnone] at hs
    | cons t T =>
      have hlen : A.length + 1 = (A ++ [prev]).length := by simp
      simp only [shiftUp, slotGet_mid, slotSet_mid] at hs
      rw [hlen] at hs
      obtain ⟨T1, hT1⟩ := ih (A ++ [prev]) T t fl (by simpa using hs)
      exact ⟨prev :: T1, by simpa using hT1⟩

/-- `insertList` of a header `c` into a list whose entries below `c` end at or
before `c`: the memory is untouched and the slots up to the returned index hold
those entries and `c`. -/
theorem insertList_below {g g3 : Heap} {F P : List Nat} {k c idx : Nat}
    (hfl : g.freeList = F ++ (P ++ List.replicate k 0))
    (hF : ∀ x ∈ F, x + 8 ≤ c) (hFp : ∀ y ∈ P, c ≤ y) (hc : 0 < c)
    (hins : insertList g c = .ok (g3, idx)) :
    g3.mem = g.mem ∧ g3.heapMem = g.heapMem ∧ g3.memBytes = g.memBytes ∧
    ∀ j q, j ≤ idx → g3.freeList[j]? = some q → q + 8 ≤ c ∨ c ≤ q := by
  cases P with
  | nil =>
    have hall : ∀ x ∈ g.freeList, x < c := by
      intro x hx
      rw [hfl] at hx
      rcases List.mem_append.mp hx with hx | hx
      · have := hF x hx
        omega
      · simp only [List.nil_append] at hx
        rw [List.eq_of_mem_replicate hx]
        exact hc
    have hpos := insertPos_all_below c g.freeList 0 hall
    simp [insertList, hpos] at hins
  | cons y Y =>
    have hpos := insertPos_append c y F (Y ++ List.replicate k 0) 0
      (fun x hx => by have := hF x hx; omega) (hFp y (by simp))
    rw [Nat.zero_add] at hpos
    have hlen : F.length + 1 = (F ++ [c]).length := by simp
    simp only [insertList, hfl, List.cons_append, hpos, slotGet_mid, slotSet_mid] at hins
    split at hins
    · simp at hins
    rename_i fl2 hsh
    have hsh2 : shiftUp ((g.nFree + 1) % UINT - (F.length + 1))
        ((F ++ [c]) ++ (Y ++ List.replicate k 0)) (F ++ [c]).length y = .ok fl2 := by
      rw [← hlen]
      simpa using hsh
    obtain ⟨T1, hT1⟩ := shiftUp_keeps _ _ _ _ _ hsh2
    have hinj := Except.ok.inj hins
    simp only [Prod.mk.injEq] at hinj
    obtain ⟨hg3, hidx⟩ := hinj
    subst hg3
    refine ⟨rfl, rfl, rfl, ?_⟩
    intro j q hj hq
    simp only [] at hq
    rw [hT1, List.getElem?_append_left (by simp; omega)] at hq
    have hmem := List.getElem?_mem hq
    rcases List.mem_append.mp hmem with hm | hm
    · exact Or.inl (hF q hm)
    · simp only [List.mem_singleton] at hm
      exact Or.inr (by omega)

/-- C13: in a well-formed state, when `myFree (p)` of the payload pointer `p` of
an `ALLOC` chunk returns, an immediately following `myFree (p)` ends in
`exit (1)`, in the state the first call left. -/
theorem C13_double_free (h h1 : Heap) (pre post : List (Nat × Nat)) (sz : Nat)
    (hwf : WellFormed h (pre ++ (ALLOC, sz) :: post))
    (hfirst : myFree h (h.heapMem + span pre + HeaderSize) = .ok (.returned h1)) :
    myFree h1 (h.heapMem + span pre + HeaderSize) = .ok (.exited h1) := by
  obtain ⟨hst, -, hge, hsp⟩ := hwf.header
  simp only [] at hst hge hsp
  have hspace := hwf.in_space
  have hbase := hwf.base_pos
  have hhdr : headerOf (h.heapMem + span pre + HeaderSize) = h.heapMem + span pre :=
    headerOf_payload _ (by omega)
  have hobj : h.heapMem + span pre + HeaderSize ≠ 0 := by simp [HeaderSize]
  obtain ⟨-, hb1, hb2⟩ := load_eq hst
  rw [myFree_alloc h _ hobj (by rw [hhdr]; exact hst), hhdr] at hfirst
  have hbyte : write32 h.mem (h.heapMem + span pre) FREE (h.heapMem + span pre) = 170 := by
    simp [write32, FREE]
  have key : h1.heapMem = h.heapMem ∧ h1.memBytes = h.memBytes ∧
      (h1.mem (h.heapMem + span pre) = 170 ∨ h1.mem (h.heapMem + span pre) = 0) := by
    unfold freeInsert at hfirst
    simp only [] at hfirst
    split at hfirst
    · split at hfirst
      · simp at hfirst
      · have := FreeOutcome.returned.inj (Except.ok.inj hfirst)
        subst this
        exact ⟨rfl, rfl, Or.inl hbyte⟩
    · split at hfirst
      · simp at hfirst
      rename_i h3 idx hins
      split at hfirst
      · simp at hfirst
      rename_i h4 hmerge
      have := FreeOutcome.returned.inj (Except.ok.inj hfirst)
      subst this
      obtain ⟨k, hlist⟩ := hwf.list
      have hne : ALLOC ≠ FREE := by decide
      have hFA : freeAddrs h.heapMem (pre ++ (ALLOC, sz) :: post)
          = freeAddrs h.heapMem pre ++ freeAddrs (h.heapMem + span pre + sz) post := by
        simp [freeAddrs_append, freeAddrs, hne]
      have hshp := hwf.shaped.append
      have hshpost : Shaped post := fun d hd => hwf.shaped d (by simp [hd])
      obtain ⟨e1, e2, e3, e4⟩ := insertList_below
        (g := { h with mem := write32 h.mem (h.heapMem + span pre) FREE,
                       nFree := (h.nFree + 1) % UINT })
        (F := freeAddrs h.heapMem pre) (P := freeAddrs (h.heapMem + span pre + sz) post)
        (k := k) (c := h.heapMem + span pre)
        (by show h.freeList = _; rw [hlist, hFA, List.append_assoc])
        (fun x hx => by
          have := (freeAddrs_bounds hshp.1 hx).2
          simp only [HeaderSize] at this
          omega)
        (fun y hy => by
          have := (freeAddrs_bounds hshpost hy).1
          omega)
        (by omega) hins
      obtain ⟨f1, f2, f3⟩ := mergeFreeChunks_frame hmerge e4
      refine ⟨by rw [f1, e2], by rw [f2, e3], ?_⟩
      rcases f3 with f3 | f3
      · rw [f3, e1]
        exact Or.inl hbyte
      · exact Or.inr f3
  obtain ⟨k1, k2, k3⟩ := key
  have hl : load h1 (headerOf (h.heapMem + span pre + HeaderSize))
      = .ok (read32 h1.mem (h.heapMem + span pre)) := by
    rw [hhdr]
    exact load_of_read (by rw [k1]; exact hb1) (by rw [k1, k2]; exact hb2)
  refine myFree_not_alloc h1 _ _ hobj hl ?_
  unfold read32 ALLOC
  rcases k3 with k3 | k3 <;> rw [k3] <;> omega

/-- C13, on a run: after `A`, `B`, `C = myMalloc (100)`, `myFree (A)`,
`myFree (C)`, the call `myFree (B)` merges `B` with both neighbours and a
second `myFree (B)` ends in `exit (1)`. -/
theorem C13_double_free_witness :
    myFree (after [.malloc 100, .malloc 100, .malloc 100, .free 0, .free 2, .free 1]).heap
        ((after [.malloc 100, .malloc 100, .malloc 100, .free 0, .free 2]).heap.heapMem
          + span [(FREE, 108)] + HeaderSize)
      = .ok (.exited
          (after [.malloc 100, .malloc 100, .malloc 100, .free 0, .free 2, .free 1]).heap) :=
  C13_double_free (after [.malloc 100, .malloc 100, .malloc 100, .free 0, .free 2]).heap
    (after [.malloc 100, .malloc 100, .malloc 100, .free 0, .free 2, .free 1]).heap
    [(FREE, 108)] [(FREE, 3880)] 108
    { base_pos := by decide, in_space := by decide, in_buffer := by decide,
      size_int := by decide, nFree_uint := by decide, slots := by decide,
      elems_uint := by decide, shaped := by decide, chain := by decide,
      tiles := by decide, list := ⟨14, by decide⟩, count := by decide }
    (by rfl)

/-! ## The length of the arena buffer -/

/-- C20 (code defect): `initHeap (4100)` returns 0 and records `heapSize = 4100`
for an arena buffer of `(4100 / 8) * 8 = 4096` bytes; the offsets 4096 to 4099
are outside the buffer.  In general (rounding in the range of `int`, buffers
obtained) the buffer has `heapSize / 8 * 8` bytes, which is `heapSize` exactly
when `heapSize` is a multiple of 8. -/
theorem C20_buffer_shorter_than_heapSize :
    ((initHeap 4100 65536 true).1 = 0 ∧
      (initHeap 4100 65536 true).2.heapSize = 4100 ∧
      (initHeap 4100 65536 true).2.memBytes = 4096 ∧
      load (initHeap 4100 65536 true).2 (65536 + 4096) = .error (.arena 69632)) ∧
    (∀ (size : Int) (arena : Nat), size ≤ 2147483644 → arena ≠ 0 →
      (initHeap size arena true).2.memBytes = (initHeap size arena true).2.heapSize / 8 * 8 ∧
      ((initHeap size arena true).2.memBytes = (initHeap size arena true).2.heapSize ↔
        (initHeap size arena true).2.heapSize % 8 = 0)) := by
  refine ⟨by decide, ?_⟩
  intro size arena hsize harena
  obtain ⟨-, -, heq⟩ := initHeap_ok size arena hsize harena
  rw [heq]
  refine ⟨rfl, ?_⟩
  show ceil4 (max size 4096).toNat / 8 * 8 = ceil4 (max size 4096).toNat ↔ _
  show _ ↔ ceil4 (max size 4096).toNat % 8 = 0
  omega

end MyHeap
